import Mathlib

/-!
Socket Comms: job server and client.

A shallow embedding of `server.c` and `client.c` (with `server_util.h` and
`client_util.h`) and theorems about the wire protocol, the job source, the
serving loop and the client's routing of jobs to its two pipes.

Conventions of the embedding

* A byte is a `Nat` below 256; a C string or buffer is a `List Nat`.
* What the C standard leaves to the implementation is a field of `Env`:
  whether plain `char` is signed, the byte order of the host, and the value
  found in memory the program reads without having written it (`junk`).
* `write` and `read` never fail with -1 in this model.  A `write` may be
  short (`Chan.caps`), a `read` may be short (the segments of `Client.sock_in`)
  and returns 0 once the peer has closed the stream.
* A loop of the source that has no bound of its own takes a fuel argument;
  `Outcome.timeout` is the result of a run that the fuel did not cover.
-/

namespace SocketComms

/-! ## Constants of `server_util.h` and `client_util.h` -/

def ONE_JOB_REQUEST : Nat := 1
def ALL_JOBS_REQUEST : Nat := 127
def STOP_REQUEST : Nat := 128
def ERROR_REQUEST : Nat := 129

def TYPE_O : Nat := 0
def TYPE_E : Nat := 1
def TYPE_Q : Nat := 7

/-- Implementation-defined behaviour the source depends on. -/
structure Env where
  /-- plain `char` is a signed type (x86) or an unsigned one (ARM) -/
  charSigned : Bool
  /-- the host stores the least significant byte of an `int` first -/
  littleEndian : Bool
  /-- value of the byte at offset `i` of memory that is read without having
  been written by the program (fresh `malloc` memory, bytes past a block) -/
  junk : Nat → Nat

/-- The struct `JobMessage` (packed): one info byte, the 32-bit `text_length`
field (its value as an unsigned number) and the flexible array `job_text`
(the bytes allocated for it). -/
structure JobMessage where
  job_info : Nat
  text_length : Nat
  job_text : List Nat
deriving DecidableEq, Repr

/-! ## Integers and byte order -/

/-- The four bytes of a 32-bit value, most significant first. -/
def beBytes (x : Nat) : List Nat :=
  [x / 16777216 % 256, x / 65536 % 256, x / 256 % 256, x % 256]

/-- The four bytes of a 32-bit value, least significant first. -/
def leBytes (x : Nat) : List Nat :=
  [x % 256, x / 256 % 256, x / 65536 % 256, x / 16777216 % 256]

/-- The 32-bit value whose bytes, most significant first, are `bs`. -/
def ofBeBytes (bs : List Nat) : Nat :=
  bs.getD 0 0 * 16777216 + bs.getD 1 0 * 65536 + bs.getD 2 0 * 256 + bs.getD 3 0

/-- The 32-bit value whose bytes, least significant first, are `bs`. -/
def ofLeBytes (bs : List Nat) : Nat :=
  bs.getD 0 0 + bs.getD 1 0 * 256 + bs.getD 2 0 * 65536 + bs.getD 3 0 * 16777216

/-- Reversal of the four bytes of a 32-bit value. -/
def bswap32 (x : Nat) : Nat := ofLeBytes (beBytes x)

/-- The library function `htonl`: host to network (big-endian) order. -/
def htonl (e : Env) (x : Nat) : Nat := if e.littleEndian then bswap32 x else x

/-- The library function `ntohl`: network to host order. -/
def ntohl (e : Env) (x : Nat) : Nat := if e.littleEndian then bswap32 x else x

/-- The bytes an `int` with value `x` occupies in memory. -/
def intBytes (e : Env) (x : Nat) : List Nat :=
  if e.littleEndian then leBytes x else beBytes x

/-- The value of the `int` whose memory holds the four bytes `bs`. -/
def intOfBytes (e : Env) (bs : List Nat) : Nat :=
  if e.littleEndian then ofLeBytes bs else ofBeBytes bs

/-! ## Strings -/

/-- The library function `strlen`: number of bytes before the first NUL. -/
def strlen (text : List Nat) : Nat := (text.takeWhile (fun c => c != 0)).length

/-- The library function `strncpy` into a destination of `n` bytes: the bytes
of `src` up to its first NUL, at most `n` of them, then NUL bytes up to `n`. -/
def strncpy (src : List Nat) (n : Nat) : List Nat :=
  (src.take (strlen src)).take n ++ List.replicate (n - min (strlen src) n) 0

/-- What `sum += text[i]` adds to the `unsigned int` sum for the byte `b`: the
`char` is promoted to `int` (sign-extended when `char` is signed) and
converted to `unsigned int`. -/
def charVal (e : Env) (b : Nat) : Nat :=
  if e.charSigned && decide (128 ≤ b) then 4294967296 - 256 + b else b

/-- The function `checksum` of `server.c`. -/
def checksum (e : Env) (text : List Nat) : Nat :=
  if strlen text ≠ 0 then
    let sum := (text.take (strlen text)).foldl
      (fun sum c => (sum + charVal e c) % 4294967296) 0
    (sum % 32) % 256
  else
    0

/-- The function `create_msg` of `server.c`.  The argument `job_text` is the
buffer `job_text` points to (`[]` for the NULL pointer). -/
def create_msg (e : Env) (job_type : Nat) (text_length : Nat) (job_text : List Nat) :
    JobMessage :=
  let text := if text_length ≠ 0 then strncpy job_text (text_length + 1) else []
  let job_info := (job_type * 32) % 256
  let job_info :=
    if job_type = TYPE_O ∨ job_type = TYPE_E then (job_info + checksum e job_text) % 256
    else job_info
  { job_info := job_info, text_length := htonl e text_length, job_text := text }

/-! ## The job file (`FILE *`) -/

/-- A stream opened on the job file: the bytes from the cursor on, the cursor
(number of bytes consumed so far) and the end-of-file indicator. -/
structure FILE where
  rest : List Nat
  pos : Nat
  eof : Bool
deriving DecidableEq, Repr

/-- A job file just opened on the bytes `data`. -/
def fopen (data : List Nat) : FILE := { rest := data, pos := 0, eof := false }

/-- The library function `fgetc`: the next byte as an `int`, or `EOF` (-1),
which also sets the end-of-file indicator. -/
def fgetc (f : FILE) : Int × FILE :=
  match f.rest with
  | [] => (-1, { f with eof := true })
  | b :: rest => ((b : Int), { f with rest := rest, pos := f.pos + 1 })

/-- The library function `fread` for `n` items of one byte: the bytes read
(fewer than `n` at the end of the file, which sets the indicator). -/
def fread (n : Nat) (f : FILE) : List Nat × FILE :=
  (f.rest.take n,
   { rest := f.rest.drop n, pos := f.pos + min n f.rest.length,
     eof := f.eof || decide (f.rest.length < n) })

/-- The `for` loop of `fetch_job` that reads the four length bytes: `n` more
rounds, `i` the loop counter. -/
def length_loop : Nat → Nat → Nat → FILE → Nat × FILE
  | 0, _, text_length, f => (text_length, f)
  | n + 1, i, text_length, f =>
    let (c, f) := fgetc f
    let shifted := ((c % 4294967296).toNat * 2 ^ (8 * i)) % 4294967296
    length_loop n (i + 1) ((text_length + shifted) % 4294967296) f

/-- The job type `fetch_job` derives from the result `c` of the first
`fgetc`, stored in an `unsigned char`: `TYPE_O` for 'O' (79), `TYPE_E` for 'E'
(69), and 'U' (85) for anything else. -/
def job_type_of (c : Int) : Nat :=
  let job_type := (c % 256).toNat
  if job_type = 79 then TYPE_O
  else if job_type = 69 then TYPE_E
  else 85

/-- The buffer `job_text` of `fetch_job` after `fread` and the store of the
terminator: `malloc (text_length + 1)` bytes, of which `fread` has written the
bytes `got`, the last one is NUL, and those between keep what `malloc` left. -/
def job_buffer (e : Env) (got : List Nat) (text_length : Nat) : List Nat :=
  got ++ (List.range (text_length - got.length)).map (fun i => e.junk (got.length + i) % 256)
    ++ [0]

/-- The function `fetch_job` of `server.c`; `none` is the NULL file pointer.
Returns the message and the file after the call. -/
def fetch_job (e : Env) : Option FILE → JobMessage × Option FILE
  | none => (create_msg e TYPE_Q 0 [], none)
  | some f =>
    let (c, f) := fgetc f
    let job_type := job_type_of c
    let (text_length, f) := length_loop 4 0 0 f
    if !f.eof && (decide (text_length > 54378) || decide (job_type = 85)) then
      (create_msg e TYPE_Q 0 [], some f)
    else if !f.eof then
      let (got, f) := fread text_length f
      let job_text := job_buffer e got text_length
      (create_msg e job_type text_length job_text, some f)
    else
      (create_msg e TYPE_Q 0 [], some f)

/-- The file pointer after `n` successive calls of `fetch_job`. -/
def after_calls (e : Env) : Nat → Option FILE → Option FILE
  | 0, file => file
  | n + 1, file => after_calls e n (fetch_job e file).2

/-! ## Descriptors written to (`write`) -/

/-- A descriptor the program writes to: the bytes accepted so far, and for
the coming `write` calls how many bytes each accepts at most (entry `c` means
`c + 1` bytes); when the list is used up every `write` is accepted in full. -/
structure Chan where
  out : List Nat
  caps : List Nat
deriving DecidableEq, Repr

/-- The system call `write`: number of bytes accepted and the descriptor
afterwards. -/
def Chan.write (ch : Chan) (data : List Nat) : Nat × Chan :=
  match ch.caps with
  | [] => (data.length, { ch with out := ch.out ++ data })
  | c :: cs => (min data.length (c + 1), { out := ch.out ++ data.take (c + 1), caps := cs })

/-- The bytes of a `JobMessage` in memory. -/
def msgBytes (e : Env) (msg : JobMessage) : List Nat :=
  msg.job_info :: (intBytes e msg.text_length ++ msg.job_text)

/-- The `n` bytes found at offset `off` of the block `block`; past the end of
the block the bytes are those of `e.junk`. -/
def peek (e : Env) (block : List Nat) (off n : Nat) : List Nat :=
  (List.range n).map (fun i => block.getD (off + i) (e.junk (off + i) % 256))

/-! ## The server: sending and serving -/

/-- The `while (sent_bytes < msg_size)` loop of `send_message`, and of
`send_to_pipe` in `client.c`.  The source address of a write is
`msg + sent_bytes`, which is `5 * sent_bytes` bytes past `msg` since `msg`
points to a `struct JobMessage` of 5 bytes.  Every `write` accepts at least
one byte, so `msg_size` rounds always suffice (first argument). -/
def write_loop (e : Env) (msg : JobMessage) (msg_size : Nat) :
    Nat → Nat → Chan → Chan
  | 0, _, client_sock => client_sock
  | fuel + 1, sent_bytes, client_sock =>
    if sent_bytes < msg_size then
      let (k, client_sock) :=
        client_sock.write (peek e (msgBytes e msg) (5 * sent_bytes) (msg_size - sent_bytes))
      write_loop e msg msg_size fuel (sent_bytes + k) client_sock
    else
      client_sock

/-- The function `send_message` of `server.c` from the line after the call of
`fetch_job`: sends `msg`, returns 1 if its text is empty and 0 otherwise. -/
def send_fetched (e : Env) (msg : JobMessage) (client_sock : Chan) : Int × Chan :=
  let text_length := if msg.text_length = 0 then 0 else ntohl e msg.text_length + 1
  let msg_size := 1 + 4 + text_length
  let client_sock := write_loop e msg msg_size msg_size 0 client_sock
  (if text_length = 0 then 1 else 0, client_sock)

/-- The function `send_message` of `server.c`. -/
def send_message (e : Env) (client_sock : Chan) (fileptr : Option FILE) :
    Int × Chan × Option FILE :=
  let (msg, fileptr) := fetch_job e fileptr
  let (status, client_sock) := send_fetched e msg client_sock
  (status, client_sock, fileptr)

/-- Result of a call whose loops may need fuel. -/
inductive Outcome (σ : Type) where
  /-- the call returned `status` and left the state `st` -/
  | ret (status : Int) (st : σ)
  /-- the call does something the C standard leaves undefined -/
  | undef
  /-- the fuel did not suffice to reach the end of the call -/
  | timeout
deriving DecidableEq, Repr

/-- What `process_request` works on: the flag `interrupted`, the results of
the coming `recv` calls on the client socket (`none`: no byte is waiting and
`recv` returns -1; `some b`: the request byte `b`; after the list no byte
is waiting), the client socket as written to, and the job file. -/
structure Server where
  interrupted : Bool
  requests : List (Option Nat)
  sock : Chan
  file : Option FILE
deriving DecidableEq, Repr

/-- The `for` loop of `process_request` for a request below 127: `n` more
rounds. -/
def serve_jobs (e : Env) : Nat → Chan → Option FILE → Int × Chan × Option FILE
  | 0, client_sock, fileptr => (0, client_sock, fileptr)
  | n + 1, client_sock, fileptr =>
    let (send_status, client_sock, fileptr) := send_message e client_sock fileptr
    if send_status ≠ 0 then (send_status, client_sock, fileptr)
    else serve_jobs e n client_sock fileptr

/-- The `while(1)` loop of `process_request` for request 127, with fuel. -/
def serve_all (e : Env) : Nat → Chan → Option FILE → Option (Chan × Option FILE)
  | 0, _, _ => none
  | fuel + 1, client_sock, fileptr =>
    let (send_status, client_sock, fileptr) := send_message e client_sock fileptr
    if send_status ≠ 0 then some (client_sock, fileptr)
    else serve_all e fuel client_sock fileptr

/-- The branch of `process_request` taken when no request is there
(`!request || received == -1`). -/
def no_request (e : Env) (s : Server) : Outcome Server :=
  if s.interrupted then
    let (_, client_sock, _) := send_message e s.sock none
    .ret 1 { s with sock := client_sock }
  else
    .ret 0 s

/-- The function `process_request` of `server.c`. -/
def process_request (e : Env) (fuel : Nat) (s : Server) : Outcome Server :=
  let received := s.requests.headD none
  let s := { s with requests := s.requests.tail }
  match received with
  | none => no_request e s
  | some request =>
    if request = 0 then no_request e s
    else if request = ONE_JOB_REQUEST then
      let (status, client_sock, fileptr) := send_message e s.sock s.file
      .ret status { s with sock := client_sock, file := fileptr }
    else if request < ALL_JOBS_REQUEST then
      let num_jobs := request &&& 127
      let (status, client_sock, fileptr) := serve_jobs e num_jobs s.sock s.file
      .ret status { s with sock := client_sock, file := fileptr }
    else if request = ALL_JOBS_REQUEST then
      match serve_all e fuel s.sock s.file with
      | none => .timeout
      | some (client_sock, fileptr) => .ret 0 { s with sock := client_sock, file := fileptr }
    else if request = STOP_REQUEST then .ret 1 s
    else if request > STOP_REQUEST then .ret 1 s
    else .ret (-1) s

/-! ## The client: receiving a reply and routing it -/

/-- What the user does at a prompt of the client: enters a line, of which
`atoi` makes the number `n`, or sends the interrupt signal. -/
inductive Stdin where
  | line (n : Int)
  | interrupt
deriving DecidableEq, Repr

/-- What the client process works on: the flag `interrupted`, the coming
events on standard input, the bytes still to come from the server (in the
segments in which `read` delivers them: a `read` never crosses the end of a
segment, and after the last segment the server has closed the stream), the
socket as written to, and the write ends of the two pipes. -/
structure Client where
  interrupted : Bool
  stdin : List Stdin
  sock_in : List (List Nat)
  sock_out : Chan
  pipe_out : Chan
  pipe_err : Chan
deriving DecidableEq, Repr

/-- The system call `read` for at most `n` bytes on the socket: the bytes
delivered (none once the stream is closed) and the stream afterwards. -/
def sock_read : List (List Nat) → Nat → List Nat × List (List Nat)
  | [], _ => ([], [])
  | [] :: rest, n => sock_read rest n
  | (b :: bs) :: rest, n =>
    ((b :: bs).take n, if n < (b :: bs).length then (b :: bs).drop n :: rest else rest)

/-- All bytes still to come on the socket. -/
def pending : List (List Nat) → List Nat
  | [] => []
  | seg :: rest => seg ++ pending rest

/-- The stream that delivers the bytes `b` in one segment and then `more`. -/
def unread (b : List Nat) (more : List (List Nat)) : List (List Nat) :=
  if b = [] then more else b :: more

/-- The loop of `process_reply` that reads the job text, with fuel: `buf` is
what has been received so far (`received_bytes` is its length). -/
def recv_text_loop (text_size : Nat) :
    Nat → List (List Nat) → List Nat → Option (List Nat × List (List Nat))
  | 0, sock, buf => if buf.length < text_size then none else some (buf, sock)
  | fuel + 1, sock, buf =>
    if buf.length < text_size then
      let (received_currently, sock) := sock_read sock (text_size - buf.length)
      recv_text_loop text_size fuel sock (buf ++ received_currently)
    else
      some (buf, sock)

/-- Result of the receiving part of `process_reply`. -/
inductive Received where
  /-- a header read was short: `process_reply` returns -1 -/
  | error (sock : List (List Nat))
  /-- the length received is negative as an `int`, or `INT_MAX`: the size
  computation and the accesses to the block are undefined -/
  | undef
  /-- the text loop did not finish within the fuel -/
  | timeout
  /-- the message `msg` has been received -/
  | message (msg : JobMessage) (sock : List (List Nat))
deriving DecidableEq, Repr

/-- The function `process_reply` of `client.c` up to the end of the loop
that reads the job text.  The field `text_length` of the message is in host
order here. -/
def receive_reply (e : Env) (fuel : Nat) (sock : List (List Nat)) : Received :=
  let (got, sock) := sock_read sock 1
  if got.length ≠ 1 then .error sock
  else
    let job_info := got.headD 0
    let (got, sock) := sock_read sock 4
    if got.length ≠ 4 then .error sock
    else
      let text_length := ntohl e (intOfBytes e got)
      if text_length ≥ 2147483647 then .undef
      else
        let text_size := if text_length = 0 then 0 else text_length + 1
        match recv_text_loop text_size fuel sock [] with
        | none => .timeout
        | some (job_text, sock) =>
          .message { job_info := job_info, text_length := text_length, job_text := job_text }
            sock

/-- The function `validate_checksum` of `client.c`.  The text is scanned up
to its first NUL, within the bytes received. -/
def validate_checksum (e : Env) (msg : JobMessage) : Int :=
  if msg.text_length = 0 then 0
  else
    let sum := (msg.job_text.take (strlen msg.job_text)).foldl
      (fun sum c => (sum + charVal e c) % 4294967296) 0
    let expected := sum % 32
    let received := msg.job_info &&& 31
    if expected = received then 0 else -1

/-- The function `send_request` of `client.c`. -/
def send_request (socket : Chan) (request : Nat) : Int × Chan :=
  let (sent, socket) := socket.write [request]
  if sent ≠ 1 then (-1, socket) else (0, socket)

/-- The function `send_to_pipe` of `client.c`; `none` is the NULL message. -/
def send_to_pipe (e : Env) (pipefd : Chan) (pipe_request : Nat) :
    Option JobMessage → Int × Chan
  | some msg =>
    let msg := { msg with job_info := pipe_request }
    let text_length := msg.text_length + 1
    let msg_size := 1 + 4 + text_length
    (0, write_loop e msg msg_size msg_size 0 pipefd)
  | none =>
    let (sent, pipefd) := pipefd.write [pipe_request]
    if sent ≠ 1 then (-1, pipefd) else (1, pipefd)

/-- The function `process_reply` of `client.c`. -/
def process_reply (e : Env) (fuel : Nat) (c : Client) : Outcome Client :=
  match receive_reply e fuel c.sock_in with
  | .error sock => .ret (-1) { c with sock_in := sock }
  | .undef => .undef
  | .timeout => .timeout
  | .message msg sock =>
    let c := { c with sock_in := sock }
    if validate_checksum e msg ≠ 0 then .ret (-1) c
    else
      let job_type := msg.job_info / 32
      if job_type = TYPE_O then
        let (r, pipe) := send_to_pipe e c.pipe_out ONE_JOB_REQUEST (some msg)
        if r = -1 then .ret (-1) { c with pipe_out := pipe }
        else .ret 1 { c with pipe_out := pipe }
      else if job_type = TYPE_E then
        let (r, pipe) := send_to_pipe e c.pipe_err ONE_JOB_REQUEST (some msg)
        if r = -1 then .ret (-1) { c with pipe_err := pipe }
        else .ret 1 { c with pipe_err := pipe }
      else if job_type = TYPE_Q then
        let request := STOP_REQUEST
        let (r, pipe) := send_to_pipe e c.pipe_out request none
        let c := { c with pipe_out := pipe }
        if r = -1 then .ret (-1) c
        else
          let (r, pipe) := send_to_pipe e c.pipe_err request none
          let c := { c with pipe_err := pipe }
          if r = -1 then .ret (-1) c
          else
            let (r, socket) := send_request c.sock_out request
            let c := { c with sock_out := socket }
            if r = -1 then .ret (-1) c
            else .ret 0 c
      else .ret (-1) c

/-- The `for` loop of option 2 of `command_menu`: `n` more receive cycles.
The result `none` means that the loop ran to its end. -/
def receive_jobs (e : Env) (fuel : Nat) : Nat → Client → Option (Outcome Client) × Client
  | 0, c => (none, c)
  | n + 1, c =>
    match process_reply e fuel c with
    | .ret process_status c =>
      if process_status ≤ 0 then (some (.ret process_status c), c)
      else receive_jobs e fuel n c
    | r => (some r, c)

/-- The `while(1)` loop of option 3 of `command_menu`, with fuel (first
argument; the second is the fuel of each `process_reply`). -/
def receive_all (e : Env) (fuel : Nat) : Nat → Client → Outcome Client
  | 0, _ => .timeout
  | k + 1, c =>
    match process_reply e fuel c with
    | .ret process_status c =>
      if process_status ≤ 0 then .ret process_status c
      else receive_all e fuel k c
    | r => r

/-- The function `command_menu` of `client.c`, with fuel for its `while(1)`
loop (second argument; the first is the fuel of the loops inside).  A prompt
that finds standard input at its end reads a buffer that was never written:
`undef`. -/
def command_menu (e : Env) (fuel : Nat) : Nat → Client → Outcome Client
  | 0, _ => .timeout
  | k + 1, c =>
    match c.stdin with
    | [] => .undef
    | ev :: stdin =>
      let c := { c with stdin := stdin,
                        interrupted := c.interrupted || decide (ev = Stdin.interrupt) }
      let entered : Int := match ev with
        | .line n => n
        | .interrupt => 0
      let option : Int := if c.interrupted then 4 else entered
      if !c.interrupted && (decide (option < 0) || decide (option > 4)) then
        command_menu e fuel k c
      else if option = 1 then
        let (request_status, socket) := send_request c.sock_out ONE_JOB_REQUEST
        let c := { c with sock_out := socket }
        if request_status ≠ 0 then .ret (-1) c
        else
          match process_reply e fuel c with
          | .ret process_status c =>
            if process_status ≤ 0 then .ret process_status c
            else command_menu e fuel k c
          | r => r
      else if option = 2 then
        match c.stdin with
        | [] => .undef
        | ev :: stdin =>
          let c := { c with stdin := stdin,
                            interrupted := c.interrupted || decide (ev = Stdin.interrupt) }
          if c.interrupted then
            let (r, socket) := send_request c.sock_out STOP_REQUEST
            let c := { c with sock_out := socket }
            if r ≠ 0 then .ret (-1) c else .ret 0 c
          else
            let jobs : Int := match ev with
              | .line n => n
              | .interrupt => 0
            if decide (jobs < 0) || decide (option > 126) then
              command_menu e fuel k c
            else
              let request := (jobs % 256).toNat &&& 127
              let (request_status, socket) := send_request c.sock_out request
              let c := { c with sock_out := socket }
              if request_status ≠ 0 then .ret (-1) c
              else
                match receive_jobs e fuel jobs.toNat c with
                | (some r, _) => r
                | (none, c) => command_menu e fuel k c
      else if option = 3 then
        let (request_status, socket) := send_request c.sock_out ALL_JOBS_REQUEST
        let c := { c with sock_out := socket }
        if request_status ≠ 0 then .ret (-1) c
        else receive_all e fuel fuel c
      else if option = 4 then
        let stop_request := STOP_REQUEST
        let (r, socket) := send_request c.sock_out stop_request
        let c := { c with sock_out := socket }
        if r ≠ 0 then .ret (-1) c
        else
          let (r, pipe) := send_to_pipe e c.pipe_out stop_request none
          let c := { c with pipe_out := pipe }
          if r = -1 then .ret (-1) c
          else
            let (r, pipe) := send_to_pipe e c.pipe_err stop_request none
            let c := { c with pipe_err := pipe }
            if r = -1 then .ret (-1) c
            else .ret 0 c
      else
        command_menu e fuel k c

/-- The message `send_to_pipe` forwards for a job with text `text`: the tag
`ONE_JOB_REQUEST`, the length as the host stores an `int`, the text and its
NUL terminator. -/
def pipeMsg (e : Env) (text : List Nat) : List Nat :=
  1 :: (intBytes e text.length ++ (text ++ [0]))

/-- The messages forwarded to a pipe for the jobs of category `cat` among
`jobs`, in order. -/
def pipeMsgs (e : Env) (cat : Nat) : List (Nat × List Nat) → List Nat
  | [] => []
  | r :: rs => (if r.1 = cat then pipeMsg e r.2 else []) ++ pipeMsgs e cat rs

/-! ## The server: admission of connections -/

/-- A connection the listening socket has accepted: the address of the peer
(`clientaddr.sin_addr.s_addr`), the bytes `approve_connection` has written to
it, and whether `approve_connection` or `accept_connections` has closed it. -/
structure Conn where
  addr : Nat
  out : List Nat
  closed : Bool
deriving DecidableEq, Repr

/-- What `approve_connection` works on: the global `connections`, the
results of the coming `accept` calls (`none`: `accept` returns -1, which on
the non-blocking socket means that no connection is pending; `some addr`: a
connection from the address `addr`; after the list nothing is pending), and
the connections accepted so far, in order (the descriptor `accept` returns is
the position in this list). -/
structure Admission where
  connections : Int
  accepts : List (Option Nat)
  conns : List Conn
deriving DecidableEq, Repr

/-- The function `approve_connection` of `server.c`.  The status of the
outcome is the value returned: the descriptor, -1 or -2.  The increment of
`connections` at `INT_MAX` overflows a signed `int`, and the test of `sent`
when neither branch has assigned it reads an uninitialised variable: both are
`undef`. -/
def approve_connection (interrupted nonblock : Bool) (a : Admission) : Outcome Admission :=
  let accepted := a.accepts.headD none
  let a := { a with accepts := a.accepts.tail }
  let client_sock : Int := match accepted with
    | none => -1
    | some _ => (a.conns.length : Int)
  let s_addr : Nat := match accepted with
    | none => 0
    | some addr => addr
  if !nonblock && decide (client_sock = -1) then
    if interrupted then .ret (-2) a else .ret (-1) a
  else if a.connections ≥ 2147483647 then .undef
  else
    let a := { a with connections := a.connections + 1 }
    if s_addr ≠ 0 then
      if a.connections = 1 then
        .ret client_sock { a with conns := a.conns ++ [{ addr := s_addr, out := [0], closed := false }] }
      else if a.connections > 1 then
        .ret client_sock
          { a with conns := a.conns ++ [{ addr := s_addr, out := [STOP_REQUEST], closed := true }],
                   connections := a.connections - 1 }
      else .undef
    else
      match accepted with
      | none => .ret (-1) a
      | some _ => .ret (-1) { a with conns := a.conns ++ [{ addr := 0, out := [], closed := false }] }

/-- The system call `close` on the descriptor at position `fd`. -/
def close_conn : List Conn → Nat → List Conn
  | [], _ => []
  | c :: cs, 0 => { c with closed := true } :: cs
  | c :: cs, fd + 1 => c :: close_conn cs fd

/-- What `accept_connections` works on: the admission state, the state of
the session served on the client socket, and the local variable
`client_sock`. -/
structure World where
  adm : Admission
  srv : Server
  client_sock : Int
deriving DecidableEq, Repr

/-- The `while(1)` loop of `accept_connections`, with fuel (second argument;
the first is the fuel of `process_request`). -/
def accept_loop (e : Env) (fuel : Nat) : Nat → World → Outcome World
  | 0, _ => .timeout
  | k + 1, w =>
    match process_request e fuel w.srv with
    | .ret request_status srv =>
      if request_status = -1 then
        .ret (-1) { w with srv := srv,
                           adm := { w.adm with conns := close_conn w.adm.conns w.client_sock.toNat } }
      else if request_status = 1 then
        .ret 0 { w with srv := srv }
      else
        match approve_connection srv.interrupted true w.adm with
        | .ret _ adm => accept_loop e fuel k { w with srv := srv, adm := adm }
        | .undef => .undef
        | .timeout => .timeout
    | .undef => .undef
    | .timeout => .timeout

/-- The function `accept_connections` of `server.c` (`set_nonblock`
succeeds). -/
def accept_connections (e : Env) (fuel : Nat) (w : World) : Outcome World :=
  match approve_connection w.srv.interrupted false w.adm with
  | .ret client_sock adm =>
    let w := { w with adm := adm, client_sock := client_sock }
    if client_sock = -1 then .ret (-1) w
    else if client_sock = -2 then .ret 0 w
    else accept_loop e fuel fuel w
  | .undef => .undef
  | .timeout => .timeout

/-- The function `main` of `server.c` from the call of `accept_connections`
on, the set-up before it having succeeded: the status is the exit status of
the server process, `EXIT_FAILURE` (1) or `EXIT_SUCCESS` (0). -/
def server_main (e : Env) (fuel : Nat) (w : World) : Outcome World :=
  match accept_connections e fuel w with
  | .ret connection_status w => if connection_status ≠ 0 then .ret 1 w else .ret 0 w
  | .undef => .undef
  | .timeout => .timeout

/-- The connection has been told that the server is busy and has been
closed. -/
def Busy (c : Conn) : Prop := c.out = [STOP_REQUEST] ∧ c.closed = true

/-- Single-flight admission: the first connection accepted has been greeted
with the byte 0, and every connection accepted after it has been told busy
and closed. -/
def SingleFlight (a : Admission) : Prop :=
  ∃ first later, a.conns = first :: later ∧ first.out = [0] ∧ ∀ c ∈ later, Busy c

/-! ## Text predicates used in the statements -/

/-- Every element is a byte. -/
def IsBytes (l : List Nat) : Prop := ∀ b ∈ l, b < 256

/-- Every element is a byte other than NUL. -/
def NulFree (l : List Nat) : Prop := ∀ b ∈ l, 1 ≤ b ∧ b ≤ 255

instance (l : List Nat) : Decidable (IsBytes l) := by unfold IsBytes; infer_instance
instance (l : List Nat) : Decidable (NulFree l) := by unfold NulFree; infer_instance

/-! ## Reference definitions, following the words of the specification -/

/-- The End frame on the wire: info byte `7 << 5`, length 0, no text. -/
def endFrame : List Nat := [224, 0, 0, 0, 0]

/-- The wire layout of a job frame of category `c` with text `text`: the info
byte `c * 32 + checksum`, the length in network byte order, and, if the length
is not 0, the text and a NUL terminator. -/
def frame (c : Nat) (text : List Nat) : List Nat :=
  (c * 32 + text.sum % 32) ::
    (beBytes text.length ++ (if text.length > 0 then text ++ [0] else []))

/-- A record of the job file: type byte, four length bytes (byte `i` counts
`256 ^ i`), text. -/
def recordBytes (ty : Nat) (text : List Nat) : List Nat :=
  ty :: (leBytes text.length ++ text)

/-- The type byte of the record at the head of `rest`. -/
def typeByte (rest : List Nat) : Nat := rest.getD 0 0

/-- The length the record at the head of `rest` declares. -/
def declaredLength (rest : List Nat) : Nat :=
  rest.getD 1 0 + 256 * rest.getD 2 0 + 65536 * rest.getD 3 0 + 16777216 * rest.getD 4 0

/-- The text of the record at the head of `rest`. -/
def recordText (rest : List Nat) : List Nat := (rest.drop 5).take (declaredLength rest)

/-- The type byte of the job file for a category: 'O' for Out, 'E' otherwise. -/
def typeChar (c : Nat) : Nat := if c = TYPE_O then 79 else 69

/-- The job file holding the records `(category, text)` in order. -/
def fileOf : List (Nat × List Nat) → List Nat
  | [] => []
  | r :: rs => recordBytes (typeChar r.1) r.2 ++ fileOf rs

/-- The job frames of the records `(category, text)` in order. -/
def framesOf : List (Nat × List Nat) → List Nat
  | [] => []
  | r :: rs => frame r.1 r.2 ++ framesOf rs

/-- A job as the claims on serving take it: category Out or Err, text
NUL-free, not empty and of at most 54378 bytes. -/
def ValidJob (r : Nat × List Nat) : Prop :=
  (r.1 = TYPE_O ∨ r.1 = TYPE_E) ∧ NulFree r.2 ∧ r.2 ≠ [] ∧ r.2.length ≤ 54378

instance (r : Nat × List Nat) : Decidable (ValidJob r) := by unfold ValidJob; infer_instance

/-- A concrete environment for examples: signed `char`, little-endian host,
unwritten memory holding the byte AA. -/
def envX : Env := ⟨true, true, fun _ => 170⟩

/-- The job file of the two-record scenario: O:"hi", E:"bye". -/
def srcHiBye : List Nat := [79, 2, 0, 0, 0, 104, 105, 69, 3, 0, 0, 0, 98, 121, 101]

/-- A job file with one record of type 'O' whose two text bytes are NUL
and 'A'. -/
def srcNulA : List Nat := [79, 2, 0, 0, 0, 0, 65]

/-- A job file with a record of unknown type 'X' followed by the valid
record O:"A". -/
def srcXA : List Nat := [88, 1, 0, 0, 0, 79, 1, 0, 0, 0, 65]

/-- A job file with a record that declares the length 65535 followed by the
valid record O:"A". -/
def srcBigA : List Nat := [79, 255, 255, 0, 0, 79, 1, 0, 0, 0, 65]

/-- A job file with a valid record of type 'O' and declared length 0
followed by the valid record O:"A". -/
def srcZeroA : List Nat := [79, 0, 0, 0, 0, 79, 1, 0, 0, 0, 65]

/-! ## Lemmas on strings and the checksum -/

theorem strlen_append_nul (t rest : List Nat) (h : NulFree t) :
    strlen (t ++ 0 :: rest) = t.length := by
  induction t with
  | nil => simp [strlen]
  | cons a t ih =>
    have ha : a ≠ 0 := by have := h a (by simp); omega
    have ht : NulFree t := fun b hb => h b (by simp [hb])
    have := ih ht
    simp only [strlen] at this ⊢
    simp only [List.cons_append, List.takeWhile_cons, bne_iff_ne, ne_eq, ha, not_false_eq_true,
      if_true, List.length_cons, this]

theorem charVal_mod (e : Env) (b : Nat) : charVal e b % 32 = b % 32 := by
  unfold charVal
  split <;> omega

theorem checksum_fold_mod (e : Env) (t : List Nat) (acc : Nat) :
    (t.foldl (fun sum c => (sum + charVal e c) % 4294967296) acc) % 32
      = (acc + t.sum) % 32 := by
  induction t generalizing acc with
  | nil => simp
  | cons a t ih =>
    simp only [List.foldl_cons, List.sum_cons]
    rw [ih]
    have := charVal_mod e a
    omega

theorem NulFree.isBytes {l : List Nat} (h : NulFree l) : IsBytes l :=
  fun b hb => by have := h b hb; omega

theorem checksum_cstring (e : Env) (t rest : List Nat) (h : NulFree t) :
    checksum e (t ++ 0 :: rest) = t.sum % 32 := by
  unfold checksum
  rw [strlen_append_nul t rest h]
  by_cases ht : t = []
  · subst ht; simp
  · have hl : t.length ≠ 0 := by simpa using ht
    simp only [hl, ne_eq, not_false_eq_true, if_true, List.take_left']
    rw [checksum_fold_mod e t 0]
    simp
    omega

/-! ## Lemmas on byte order -/

theorem leBytes_of_digits (a b c d : Nat) (ha : a < 256) (hb : b < 256) (hc : c < 256)
    (hd : d < 256) : leBytes (a + b * 256 + c * 65536 + d * 16777216) = [a, b, c, d] := by
  simp only [leBytes, List.cons.injEq, and_true]
  refine ⟨?_, ?_, ?_, ?_⟩ <;> omega

theorem beBytes_of_digits (a b c d : Nat) (ha : a < 256) (hb : b < 256) (hc : c < 256)
    (hd : d < 256) : beBytes (a + b * 256 + c * 65536 + d * 16777216) = [d, c, b, a] := by
  simp only [beBytes, List.cons.injEq, and_true]
  refine ⟨?_, ?_, ?_, ?_⟩ <;> omega

theorem digits_sum (x : Nat) (hx : x < 4294967296) :
    x % 256 + x / 256 % 256 * 256 + x / 65536 % 256 * 65536 + x / 16777216 % 256 * 16777216
      = x := by
  omega

theorem leBytes_ofLeBytes_beBytes (x : Nat) : leBytes (ofLeBytes (beBytes x)) = beBytes x := by
  simp only [ofLeBytes, beBytes, List.getD_cons_zero, List.getD_cons_succ]
  exact leBytes_of_digits _ _ _ _ (Nat.mod_lt _ (by decide)) (Nat.mod_lt _ (by decide))
    (Nat.mod_lt _ (by decide)) (Nat.mod_lt _ (by decide))

theorem intBytes_htonl (e : Env) (x : Nat) : intBytes e (htonl e x) = beBytes x := by
  unfold intBytes htonl bswap32
  cases e.littleEndian
  · simp
  · simp [leBytes_ofLeBytes_beBytes]

theorem bswap32_bswap32 (x : Nat) (hx : x < 4294967296) : bswap32 (bswap32 x) = x := by
  have h := beBytes_of_digits (x / 16777216 % 256) (x / 65536 % 256) (x / 256 % 256) (x % 256)
    (Nat.mod_lt _ (by decide)) (Nat.mod_lt _ (by decide)) (Nat.mod_lt _ (by decide))
    (Nat.mod_lt _ (by decide))
  unfold bswap32
  rw [show ofLeBytes (beBytes x) = x / 16777216 % 256 + x / 65536 % 256 * 256
      + x / 256 % 256 * 65536 + x % 256 * 16777216 from rfl, h]
  simp only [ofLeBytes, List.getD_cons_zero, List.getD_cons_succ]
  exact digits_sum x hx

theorem ntohl_htonl (e : Env) (x : Nat) (hx : x < 4294967296) : ntohl e (htonl e x) = x := by
  unfold ntohl htonl
  cases e.littleEndian
  · simp
  · simp [bswap32_bswap32 x hx]

theorem bswap32_eq_zero (x : Nat) (hx : x < 4294967296) : bswap32 x = 0 ↔ x = 0 := by
  constructor
  · intro h
    have := bswap32_bswap32 x hx
    rw [h] at this
    exact this.symm
  · intro h
    subst h
    rfl

theorem htonl_eq_zero (e : Env) (x : Nat) (hx : x < 4294967296) : htonl e x = 0 ↔ x = 0 := by
  unfold htonl
  cases e.littleEndian
  · simp
  · simp [bswap32_eq_zero x hx]

theorem htonl_zero (e : Env) : htonl e 0 = 0 := (htonl_eq_zero e 0 (by decide)).2 rfl

theorem beBytes_length (x : Nat) : (beBytes x).length = 4 := rfl

/-! ## Lemmas on sending -/

theorem peek_length (e : Env) (block : List Nat) (off n : Nat) :
    (peek e block off n).length = n := by
  simp [peek]

theorem peek_block (e : Env) (block : List Nat) : peek e block 0 block.length = block := by
  apply List.ext_getElem
  · simp [peek]
  · intro i h1 h2
    simp [peek, List.getD_eq_getElem?_getD, List.getElem?_eq_getElem h2]

theorem write_loop_full (e : Env) (msg : JobMessage) (n : Nat) (out : List Nat) :
    write_loop e msg (n + 1) (n + 1) 0 ⟨out, []⟩
      = ⟨out ++ peek e (msgBytes e msg) 0 (n + 1), []⟩ := by
  cases n with
  | zero => simp [write_loop, Chan.write, peek_length]
  | succ m => simp [write_loop, Chan.write, peek_length]

/-! ## Lemmas on `strncpy` and `create_msg` -/

theorem strlen_cstring_le (buf rest : List Nat) : strlen (buf ++ 0 :: rest) ≤ buf.length := by
  induction buf with
  | nil => simp [strlen]
  | cons a t ih =>
    simp only [strlen] at ih ⊢
    simp only [List.cons_append, List.takeWhile_cons, List.length_cons]
    split
    · simp only [List.length_cons]; omega
    · simp

theorem strncpy_cstring (buf : List Nat) :
    strncpy (buf ++ [0]) (buf.length + 1)
      = (buf.take (strlen (buf ++ [0]))
          ++ List.replicate (buf.length - strlen (buf ++ [0])) 0) ++ [0] := by
  have hk := strlen_cstring_le buf []
  unfold strncpy
  generalize strlen (buf ++ [0]) = k at hk ⊢
  have h1 : min k (buf.length + 1) = k := by omega
  have h2 : buf.length + 1 - k = (buf.length - k) + 1 := by omega
  have e1 : (List.take k (buf ++ [0])).take (buf.length + 1) = buf.take k := by
    rw [List.take_append_of_le_length hk]
    apply List.take_of_length_le
    simp only [List.length_take]
    omega
  rw [e1, h1, h2, List.replicate_succ', List.append_assoc]

theorem strncpy_nulFree (t : List Nat) (h : NulFree t) :
    strncpy (t ++ [0]) (t.length + 1) = t ++ [0] := by
  rw [strncpy_cstring, strlen_append_nul t [] h]
  simp

theorem job_info_compose (c cs : Nat) (hc : c < 8) (hcs : cs < 32) :
    ((c * 32) % 256 + cs) % 256 = c * 32 + cs := by
  omega

theorem checksum_lt (e : Env) (text : List Nat) : checksum e text < 32 := by
  unfold checksum
  split
  · simp only
    omega
  · decide

theorem create_msg_job (e : Env) (c L : Nat) (job_text : List Nat)
    (hc : c = TYPE_O ∨ c = TYPE_E) :
    create_msg e c L job_text
      = { job_info := c * 32 + checksum e job_text, text_length := htonl e L,
          job_text := if L ≠ 0 then strncpy job_text (L + 1) else [] } := by
  have hcs := checksum_lt e job_text
  have hc8 : c < 8 := by rcases hc with h | h <;> simp [h, TYPE_O, TYPE_E]
  simp only [create_msg, hc, if_true, job_info_compose c _ hc8 hcs]

theorem create_msg_end (e : Env) :
    create_msg e TYPE_Q 0 [] = { job_info := 224, text_length := 0, job_text := [] } := by
  simp [create_msg, TYPE_Q, TYPE_O, TYPE_E, htonl_zero]

theorem send_fetched_full (e : Env) (msg : JobMessage) (L : Nat) (out : List Nat)
    (hL : L < 4294967296) (hlen : msg.text_length = htonl e L)
    (htext : msg.job_text.length = if L = 0 then 0 else L + 1) :
    send_fetched e msg ⟨out, []⟩
      = (if L = 0 then 1 else 0, ⟨out ++ msg.job_info :: (beBytes L ++ msg.job_text), []⟩) := by
  have hsize : (msgBytes e msg).length = 1 + 4 + (if L = 0 then 0 else L + 1) := by
    simp [msgBytes, hlen, intBytes_htonl, beBytes_length, htext]
    omega
  have hz : (msg.text_length = 0) = (L = 0) := by
    rw [hlen]; exact propext (htonl_eq_zero e L hL)
  unfold send_fetched
  simp only [hz]
  simp only [hlen, ntohl_htonl e L hL]
  have hb := peek_block e (msgBytes e msg)
  rw [hsize] at hb
  rw [show (1 + 4 + if L = 0 then 0 else L + 1) = (4 + if L = 0 then 0 else L + 1) + 1 by omega,
    write_loop_full]
  rw [show (4 + if L = 0 then 0 else L + 1) + 1 = (1 + 4 + if L = 0 then 0 else L + 1) by omega, hb]
  simp only [msgBytes, hlen, intBytes_htonl]
  split <;> simp_all

/-! ## Lemmas on `fetch_job` -/

theorem job_type_of_cases (c : Int) :
    job_type_of c = TYPE_O ∨ job_type_of c = TYPE_E ∨ job_type_of c = 85 := by
  unfold job_type_of
  simp only []
  split
  · exact Or.inl rfl
  · split
    · exact Or.inr (Or.inl rfl)
    · exact Or.inr (Or.inr rfl)

theorem job_buffer_eq (e : Env) (got : List Nat) (L : Nat) (h : got.length ≤ L) :
    ∃ buf, buf.length = L ∧ job_buffer e got L = buf ++ [0] ∧ buf.take got.length = got := by
  refine ⟨got ++ (List.range (L - got.length)).map (fun i => e.junk (got.length + i) % 256),
    ?_, rfl, ?_⟩
  · simp only [List.length_append, List.length_map, List.length_range]
    omega
  · simp

theorem fread_length_le (n : Nat) (f : FILE) : (fread n f).1.length ≤ n := by
  simp [fread]

theorem fetch_job_shape (e : Env) (file : Option FILE) :
    (fetch_job e file).1 = create_msg e TYPE_Q 0 [] ∨
      ∃ c buf, (c = TYPE_O ∨ c = TYPE_E) ∧ buf.length ≤ 54378 ∧
        (fetch_job e file).1 = create_msg e c buf.length (buf ++ [0]) := by
  cases file with
  | none => exact Or.inl rfl
  | some f =>
    simp only [fetch_job]
    rcases fgetc f with ⟨c, f1⟩
    rcases length_loop 4 0 0 f1 with ⟨tl, f2⟩
    simp only []
    have hjt := job_type_of_cases c
    generalize job_type_of c = jt at hjt ⊢
    by_cases h1 : (!f2.eof && (decide (tl > 54378) || decide (jt = 85))) = true
    · rw [if_pos h1]; exact Or.inl rfl
    · rw [if_neg h1]
      by_cases h2 : (!f2.eof) = true
      · rw [if_pos h2]
        right
        simp only [h2, Bool.true_and, Bool.or_eq_true, decide_eq_true_eq, not_or, not_lt] at h1
        obtain ⟨buf, hb1, hb2, -⟩ := job_buffer_eq e (fread tl f2).1 tl (fread_length_le tl f2)
        refine ⟨jt, buf, ?_, by omega, by simp only [hb2, hb1]⟩
        rcases hjt with h | h | h
        · exact Or.inl h
        · exact Or.inr h
        · exact absurd h h1.2
      · rw [if_neg h2]; exact Or.inl rfl

/-! ## Theorems for the claims -/

/-- C1: for every NUL-free text (bytes 1..255, any length) the checksum the
server computes for the string is the sum of the unsigned byte values modulo
32 and is below 32, whether `char` is signed or not; the checksum of "hi" is
17. -/
theorem checksum_eq_sum_mod_32 (e : Env) (t : List Nat) (h : NulFree t) :
    checksum e (t ++ [0]) = t.sum % 32 ∧ checksum e (t ++ [0]) < 32
      ∧ checksum e [104, 105, 0] = 17 := by
  have h1 := checksum_cstring e t [] h
  have h2 := checksum_cstring e [104, 105] [] (by decide)
  refine ⟨h1, ?_, ?_⟩
  · rw [h1]; exact Nat.mod_lt _ (by decide)
  · simpa using h2

theorem checksum_eq_sum_mod_32_witness :
    NulFree [200, 255, 1] ∧
      (checksum ⟨true, true, fun _ => 0⟩ ([200, 255, 1] ++ [0]) = [200, 255, 1].sum % 32
        ∧ checksum ⟨true, true, fun _ => 0⟩ ([200, 255, 1] ++ [0]) < 32
        ∧ checksum ⟨true, true, fun _ => 0⟩ [104, 105, 0] = 17) :=
  ⟨by decide, checksum_eq_sum_mod_32 ⟨true, true, fun _ => 0⟩ [200, 255, 1] (by decide)⟩

theorem create_msg_text_take (e : Env) (c : Nat) (buf : List Nat)
    (hc : c = TYPE_O ∨ c = TYPE_E) :
    (create_msg e c buf.length (buf ++ [0])).job_text
      = if buf.length = 0 then []
        else (buf.take (strlen (buf ++ [0]))
          ++ List.replicate (buf.length - strlen (buf ++ [0])) 0) ++ [0] := by
  rw [create_msg_job e c _ _ hc]
  by_cases h : buf.length = 0
  · simp [h]
  · simp only [ne_eq, h, not_false_eq_true, if_true, if_false, strncpy_cstring]

theorem send_fetched_job (e : Env) (c : Nat) (buf out : List Nat)
    (hc : c = TYPE_O ∨ c = TYPE_E) (hlen : buf.length ≤ 54378) :
    send_fetched e (create_msg e c buf.length (buf ++ [0])) ⟨out, []⟩
      = (if buf.length = 0 then 1 else 0,
         ⟨out ++ (c * 32 + checksum e (buf ++ [0])) ::
            (beBytes buf.length ++ (create_msg e c buf.length (buf ++ [0])).job_text), []⟩) := by
  have h := send_fetched_full e (create_msg e c buf.length (buf ++ [0])) buf.length out
    (by omega) (by rw [create_msg_job e c _ _ hc])
    (by
      rw [create_msg_text_take e c buf hc]
      have := strlen_cstring_le buf []
      split
      · rfl
      · simp only [List.length_append, List.length_take, List.length_replicate,
          List.length_singleton]
        omega)
  rw [h]
  congr 3
  rw [create_msg_job e c _ _ hc]

theorem send_fetched_end (e : Env) (out : List Nat) :
    send_fetched e (create_msg e TYPE_Q 0 []) ⟨out, []⟩ = (1, ⟨out ++ endFrame, []⟩) := by
  have h := send_fetched_full e (create_msg e TYPE_Q 0 []) 0 out (by decide)
    (by rw [create_msg_end, htonl_zero]) (by rw [create_msg_end]; rfl)
  rw [h, create_msg_end]
  rfl

/-! ## Lemmas on short writes -/

theorem write_loop_length (e : Env) (msg : JobMessage) (msg_size : Nat) (fuel sent : Nat)
    (ch : Chan) (h1 : sent ≤ msg_size) (h2 : msg_size - sent ≤ fuel) :
    (write_loop e msg msg_size fuel sent ch).out.length = ch.out.length + (msg_size - sent) := by
  induction fuel generalizing sent ch with
  | zero =>
    have : msg_size - sent = 0 := by omega
    simp [write_loop, this]
  | succ fuel ih =>
    simp only [write_loop]
    by_cases hlt : sent < msg_size
    · rw [if_pos hlt]
      obtain ⟨out, caps⟩ := ch
      cases caps with
      | nil =>
        simp only [Chan.write, peek_length]
        rw [ih _ _ (by omega) (by omega)]
        simp only [List.length_append, peek_length]
        omega
      | cons c cs =>
        simp only [Chan.write, peek_length]
        rw [ih _ _ (by omega) (by omega)]
        simp only [List.length_append, List.length_take, peek_length]
        omega
    · rw [if_neg hlt]
      omega

theorem write_loop_done (e : Env) (msg : JobMessage) (msg_size fuel sent : Nat) (ch : Chan)
    (h : msg_size ≤ sent) : write_loop e msg msg_size fuel sent ch = ch := by
  cases fuel with
  | zero => rfl
  | succ f => simp only [write_loop, if_neg (show ¬ sent < msg_size by omega)]

theorem write_loop_one_then_full (e : Env) (msg : JobMessage) (n : Nat) (out : List Nat) :
    write_loop e msg (n + 2) (n + 2) 0 ⟨out, [0]⟩
      = ⟨out ++ (peek e (msgBytes e msg) 0 (n + 2)).take 1
          ++ peek e (msgBytes e msg) 5 (n + 1), []⟩ := by
  simp only [write_loop, Nat.zero_lt_succ, if_true, Chan.write, peek_length, Nat.mul_zero,
    Nat.sub_zero, Nat.zero_add]
  rw [if_pos (by omega), write_loop_done _ _ _ _ _ _ (by omega)]
  simp

theorem create_msg_hi (e : Env) :
    create_msg e TYPE_O 2 [104, 105, 0] = ⟨17, htonl e 2, [104, 105, 0]⟩ := by
  have h1 := create_msg_job e TYPE_O 2 [104, 105, 0] (Or.inl rfl)
  have h2 := checksum_cstring e [104, 105] [] (by decide)
  have h3 := strncpy_nulFree [104, 105] (by decide)
  simp only [List.cons_append, List.nil_append, List.length_cons, List.length_nil] at h2 h3
  rw [h1, h2]
  simp only [ne_eq, OfNat.ofNat_ne_zero, not_false_eq_true, if_true]
  rw [h3]
  rfl

theorem send_fetched_hi_short (e : Env) :
    (send_fetched e ⟨17, htonl e 2, [104, 105, 0]⟩ ⟨[], [0]⟩).2.out
      = [17, 104, 105, 0, e.junk 8 % 256, e.junk 9 % 256, e.junk 10 % 256, e.junk 11 % 256] := by
  have hb : msgBytes e ⟨17, htonl e 2, [104, 105, 0]⟩ = [17, 0, 0, 0, 2, 104, 105, 0] := by
    simp only [msgBytes, intBytes_htonl]
    rfl
  have hz : ¬ (htonl e 2 = 0) := by
    rw [htonl_eq_zero e 2 (by decide)]; decide
  simp only [send_fetched, hz, if_false, ntohl_htonl e 2 (by decide)]
  rw [show 1 + 4 + (2 + 1) = 6 + 2 from rfl, write_loop_one_then_full, hb]
  rfl

theorem send_to_pipe_hi_short (e : Env) :
    (send_to_pipe e ⟨[], [0]⟩ ONE_JOB_REQUEST (some ⟨17, 2, [104, 105, 0]⟩)).2.out
      = [1, 104, 105, 0, e.junk 8 % 256, e.junk 9 % 256, e.junk 10 % 256, e.junk 11 % 256] := by
  have hb : msgBytes e ⟨ONE_JOB_REQUEST, 2, [104, 105, 0]⟩
      = 1 :: (intBytes e 2 ++ [104, 105, 0]) := rfl
  simp only [send_to_pipe]
  rw [show 1 + 4 + (2 + 1) = 6 + 2 from rfl, write_loop_one_then_full, hb]
  obtain ⟨cs, le, junk⟩ := e
  cases le <;> rfl

theorem msgBytes_job (e : Env) (c : Nat) (t : List Nat)
    (hc : c = TYPE_O ∨ c = TYPE_E) (hn : NulFree t) (hne : t ≠ []) :
    msgBytes e (create_msg e c t.length (t ++ [0]))
      = (c * 32 + t.sum % 32) :: (beBytes t.length ++ (t ++ [0])) := by
  have h0 : t.length ≠ 0 := fun h => hne (List.length_eq_zero.mp h)
  rw [create_msg_job e c _ _ hc, checksum_cstring e t [] hn]
  simp only [msgBytes, intBytes_htonl, ne_eq, h0, not_false_eq_true, if_true,
    strncpy_nulFree t hn]

theorem peek_past (e : Env) (head body : List Nat) (k : Nat) :
    peek e (head ++ body) head.length (body.length + k)
      = body ++ (List.range k).map
          (fun i => e.junk (head.length + body.length + i) % 256) := by
  apply List.ext_getElem
  · simp [peek]
  · intro i h1 h2
    simp only [peek, List.length_map, List.length_range] at h1
    simp only [peek, List.getElem_map, List.getElem_range]
    by_cases hi : i < body.length
    · rw [List.getElem_append_left hi, List.getD_eq_getElem?_getD,
        List.getElem?_append_right (by omega)]
      simp [List.getElem?_eq_getElem hi]
    · rw [List.getElem_append_right (by omega), List.getD_eq_getElem?_getD,
        List.getElem?_eq_none (by simp only [List.length_append]; omega)]
      simp only [List.getElem_map, List.getElem_range, Option.getD_none]
      congr 2
      omega

theorem peek_take_one (e : Env) (x : Nat) (l : List Nat) (n : Nat) :
    (peek e (x :: l) 0 (n + 1)).take 1 = [x] := by
  simp [peek, List.range_succ_eq_map]

theorem send_fetched_first_write_one (e : Env) (c : Nat) (t out : List Nat)
    (hc : c = TYPE_O ∨ c = TYPE_E) (hn : NulFree t) (hne : t ≠ []) (hlen : t.length ≤ 54378) :
    send_fetched e (create_msg e c t.length (t ++ [0])) ⟨out, [0]⟩
      = (0, ⟨out ++ (c * 32 + t.sum % 32) ::
            (t ++ 0 :: (List.range 4).map (fun i => e.junk (t.length + 6 + i) % 256)), []⟩) := by
  have h0 : t.length ≠ 0 := fun h => hne (List.length_eq_zero.mp h)
  have hb := msgBytes_job e c t hc hn hne
  have hz : ¬ ((create_msg e c t.length (t ++ [0])).text_length = 0) := by
    rw [create_msg_job e c _ _ hc]
    simp only
    rw [htonl_eq_zero e t.length (by omega)]
    exact h0
  have hl : ntohl e (create_msg e c t.length (t ++ [0])).text_length = t.length := by
    rw [create_msg_job e c _ _ hc]
    exact ntohl_htonl e t.length (by omega)
  have hp := peek_past e ((c * 32 + t.sum % 32) :: beBytes t.length) (t ++ [0]) 4
  simp only [List.length_cons, beBytes_length, List.length_append, List.length_singleton,
    List.length_nil, List.cons_append, Nat.zero_add, Nat.reduceAdd] at hp
  simp only [send_fetched, hz, if_false, hl]
  rw [show 1 + 4 + (t.length + 1) = (t.length + 4) + 2 by omega, write_loop_one_then_full, hb,
    show t.length + 4 + 1 = t.length + 1 + 4 by omega, hp, peek_take_one]
  have hj : ∀ i, 5 + (t.length + 1) + i = t.length + 6 + i := fun i => by omega
  simp [hj]

theorem send_fetched_first_write_one_ne (e : Env) (c : Nat) (t out : List Nat)
    (hc : c = TYPE_O ∨ c = TYPE_E) (hn : NulFree t) (hne : t ≠ []) (hlen : t.length ≤ 54378) :
    (send_fetched e (create_msg e c t.length (t ++ [0])) ⟨out, [0]⟩).2.out ≠ out ++ frame c t := by
  rw [send_fetched_first_write_one e c t out hc hn hne hlen]
  simp only [frame, ne_eq, List.append_cancel_left_eq, List.cons.injEq, true_and]
  cases t with
  | nil => exact absurd rfl hne
  | cons a t' =>
    have ha := hn a (by simp)
    simp only [List.length_cons] at hlen
    have hd : (t'.length + 1) / 16777216 = 0 := by omega
    simp only [beBytes, List.length_cons, hd, List.cons_append, List.cons.injEq, not_and]
    intro h
    omega


/-- C3: when every write is accepted in full, the bytes `send_message` puts on
the wire for a message built by `create_msg` are the info byte
`category * 32 + checksum`, the text length as four bytes in big-endian order
and, if and only if the length is not 0, the text bytes and one NUL; the
info byte divided by 32 is the category and its remainder the checksum; the
End frame is the five bytes E0 00 00 00 00; every message `fetch_job` hands
to `send_message` is of one of the two kinds.  The code at the failing
input: when the first `write` accepts one byte only, the bytes on the wire
for a job with a non-empty NUL-free text are the info byte, the text, a NUL
and four bytes from beyond the message; the four length bytes are missing
and the bytes are not the frame.  For the job O:"hi" they are
17 104 105 0 and four such bytes, where the frame is 17 0 0 0 2 104 105 0. -/
theorem wire_layout (e : Env) (c : Nat) (buf out : List Nat)
    (hc : c = TYPE_O ∨ c = TYPE_E) (hlen : buf.length ≤ 54378) :
    (send_fetched e (create_msg e c buf.length (buf ++ [0])) ⟨out, []⟩).2.out
        = out ++ (c * 32 + checksum e (buf ++ [0])) ::
            (beBytes buf.length ++
              (if buf.length > 0
                then (create_msg e c buf.length (buf ++ [0])).job_text.take buf.length ++ [0]
                else []))
      ∧ ((create_msg e c buf.length (buf ++ [0])).job_text.take buf.length).length = buf.length
      ∧ (NulFree buf →
          (create_msg e c buf.length (buf ++ [0])).job_text.take buf.length = buf
            ∧ checksum e (buf ++ [0]) = buf.sum % 32
            ∧ (send_fetched e (create_msg e c buf.length (buf ++ [0])) ⟨out, []⟩).2.out
                = out ++ frame c buf)
      ∧ (create_msg e c buf.length (buf ++ [0])).job_info = c * 32 + checksum e (buf ++ [0])
      ∧ (create_msg e c buf.length (buf ++ [0])).job_info / 32 = c
      ∧ (create_msg e c buf.length (buf ++ [0])).job_info % 32 = checksum e (buf ++ [0])
      ∧ (send_fetched e (create_msg e TYPE_Q 0 []) ⟨out, []⟩).2.out = out ++ [224, 0, 0, 0, 0]
      ∧ (create_msg e TYPE_Q 0 []).job_info / 32 = TYPE_Q
      ∧ (create_msg e TYPE_Q 0 []).job_info % 32 = 0
      ∧ (TYPE_O = 0 ∧ TYPE_E = 1 ∧ TYPE_Q = 7)
      ∧ (∀ file : Option FILE,
          (fetch_job e file).1 = create_msg e TYPE_Q 0 [] ∨
            ∃ c1 buf1, (c1 = TYPE_O ∨ c1 = TYPE_E) ∧ buf1.length ≤ 54378 ∧
              (fetch_job e file).1 = create_msg e c1 buf1.length (buf1 ++ [0]))
      ∧ (NulFree buf → buf ≠ [] →
          (send_fetched e (create_msg e c buf.length (buf ++ [0])) ⟨out, [0]⟩).2.out
              = out ++ (c * 32 + buf.sum % 32) ::
                  (buf ++ 0 :: (List.range 4).map (fun i => e.junk (buf.length + 6 + i) % 256))
            ∧ (send_fetched e (create_msg e c buf.length (buf ++ [0])) ⟨out, [0]⟩).2.out
                ≠ out ++ frame c buf)
      ∧ (send_fetched e (create_msg e TYPE_O 2 [104, 105, 0]) ⟨[], [0]⟩).2.out
          = [17, 104, 105, 0, e.junk 8 % 256, e.junk 9 % 256, e.junk 10 % 256, e.junk 11 % 256]
      ∧ frame TYPE_O [104, 105] = [17, 0, 0, 0, 2, 104, 105, 0] := by
  have hcs := checksum_lt e (buf ++ [0])
  have hk := strlen_cstring_le buf []
  have hc2 : c < 2 := by rcases hc with h | h <;> simp [h, TYPE_O, TYPE_E]
  have htext := create_msg_text_take e c buf hc
  have htake : (create_msg e c buf.length (buf ++ [0])).job_text
      = if buf.length = 0 then []
        else (create_msg e c buf.length (buf ++ [0])).job_text.take buf.length ++ [0] := by
    rw [htext]
    split
    · rfl
    · rw [List.take_left']
      simp only [List.length_append, List.length_take, List.length_replicate]
      omega
  have hwire := send_fetched_job e c buf out hc hlen
  have hinfo := congrArg JobMessage.job_info (create_msg_job e c buf.length (buf ++ [0]) hc)
  simp only at hinfo
  have hout : (send_fetched e (create_msg e c buf.length (buf ++ [0])) ⟨out, []⟩).2.out
        = out ++ (c * 32 + checksum e (buf ++ [0])) ::
            (beBytes buf.length ++
              (if buf.length > 0
                then (create_msg e c buf.length (buf ++ [0])).job_text.take buf.length ++ [0]
                else [])) := by
    rw [hwire]
    simp only
    conv_lhs => rw [htake]
    by_cases h0 : buf.length = 0
    · simp [h0]
    · have : buf.length > 0 := by omega
      simp [h0, this]
  have hnf : NulFree buf →
      (create_msg e c buf.length (buf ++ [0])).job_text.take buf.length = buf := by
    intro hn
    rw [htext, strlen_append_nul buf [] hn]
    split
    · rename_i h0
      have : buf = [] := List.length_eq_zero.mp h0
      simp [this]
    · simp
  refine ⟨hout, ?_, ?_, hinfo, ?_, ?_, ?_, ?_, ?_, ⟨rfl, rfl, rfl⟩, fetch_job_shape e, ?_, ?_,
    by decide⟩
  · rw [htext]
    split
    · rename_i h0; simp [h0]
    · simp only [List.length_take, List.length_append, List.length_replicate,
        List.length_singleton]
      omega
  · intro hn
    refine ⟨hnf hn, checksum_cstring e buf [] hn, ?_⟩
    rw [hout, hnf hn, checksum_cstring e buf [] hn]
    rfl
  · rw [hinfo]; omega
  · rw [hinfo]; omega
  · rw [send_fetched_end]; rfl
  · rw [create_msg_end]; rfl
  · rw [create_msg_end]; rfl
  · intro hn hne
    exact ⟨congrArg (fun r => r.2.out) (send_fetched_first_write_one e c buf out hc hn hne hlen),
      send_fetched_first_write_one_ne e c buf out hc hn hne hlen⟩
  · rw [create_msg_hi]
    exact send_fetched_hi_short e

theorem wire_layout_witness :
    (send_fetched envX (create_msg envX 1 [98, 121, 101].length ([98, 121, 101] ++ [0]))
        ⟨[], []⟩).2.out = [32, 0, 0, 0, 3, 98, 121, 101, 0]
      ∧ (send_fetched envX (create_msg envX 1 [98, 121, 101].length ([98, 121, 101] ++ [0]))
          ⟨[], [0]⟩).2.out = [32, 98, 121, 101, 0, 170, 170, 170, 170] :=
  ⟨Eq.trans ((wire_layout envX 1 [98, 121, 101] [] (Or.inr rfl) (by decide)).2.2.1
      (by decide)).2.2 (by decide),
    Eq.trans ((wire_layout envX 1 [98, 121, 101] [] (Or.inr rfl) (by decide)).2.2.2.2.2.2.2.2.2.2.2.1
      (by decide) (by decide)).1 (by decide)⟩

/-! ## `fetch_job` against the record format -/

theorem fetch_job_short (e : Env) (f : FILE) (h : f.rest.length < 5) :
    fetch_job e (some f)
      = (create_msg e TYPE_Q 0 [],
         some { rest := [], pos := f.pos + f.rest.length, eof := true }) := by
  obtain ⟨rest, pos, eof⟩ := f
  match rest, h with
  | [], _ => rfl
  | [_], _ => rfl
  | [_, _], _ => rfl
  | [_, _, _], _ => rfl
  | [_, _, _, _], _ => rfl
  | _ :: _ :: _ :: _ :: _ :: _, h => exact absurd h (by simp only [List.length_cons]; omega)

theorem length_loop_header (b0 b1 b2 b3 : Nat) (body : List Nat) (pos : Nat) (eof : Bool)
    (h0 : b0 < 256) (h1 : b1 < 256) (h2 : b2 < 256) (h3 : b3 < 256) :
    length_loop 4 0 0 ⟨b0 :: b1 :: b2 :: b3 :: body, pos, eof⟩
      = (b0 + 256 * b1 + 65536 * b2 + 16777216 * b3, ⟨body, pos + 4, eof⟩) := by
  simp only [length_loop, fgetc]
  have e0 : ((b0 : Int) % 4294967296).toNat = b0 := by omega
  have e1 : ((b1 : Int) % 4294967296).toNat = b1 := by omega
  have e2 : ((b2 : Int) % 4294967296).toNat = b2 := by omega
  have e3 : ((b3 : Int) % 4294967296).toNat = b3 := by omega
  rw [e0, e1, e2, e3]
  refine Prod.ext ?_ rfl
  simp only
  norm_num
  omega

theorem job_type_of_byte (ty : Nat) (h : ty < 256) :
    job_type_of (ty : Int)
      = if ty = 79 then TYPE_O else if ty = 69 then TYPE_E else 85 := by
  unfold job_type_of
  have : ((ty : Int) % 256).toNat = ty := by omega
  simp only [this]

theorem fetch_job_header (e : Env) (ty b0 b1 b2 b3 : Nat) (body : List Nat) (pos : Nat)
    (hty : ty < 256) (h0 : b0 < 256) (h1 : b1 < 256) (h2 : b2 < 256) (h3 : b3 < 256) :
    fetch_job e (some ⟨ty :: b0 :: b1 :: b2 :: b3 :: body, pos, false⟩)
      = if b0 + 256 * b1 + 65536 * b2 + 16777216 * b3 > 54378 ∨ (ty ≠ 79 ∧ ty ≠ 69) then
          (create_msg e TYPE_Q 0 [], some ⟨body, pos + 5, false⟩)
        else
          (create_msg e (if ty = 79 then TYPE_O else TYPE_E)
              (b0 + 256 * b1 + 65536 * b2 + 16777216 * b3)
              (job_buffer e (body.take (b0 + 256 * b1 + 65536 * b2 + 16777216 * b3))
                (b0 + 256 * b1 + 65536 * b2 + 16777216 * b3)),
            some ⟨body.drop (b0 + 256 * b1 + 65536 * b2 + 16777216 * b3),
              pos + 5 + min (b0 + 256 * b1 + 65536 * b2 + 16777216 * b3) body.length,
              decide (body.length < b0 + 256 * b1 + 65536 * b2 + 16777216 * b3)⟩) := by
  have hl := length_loop_header b0 b1 b2 b3 body (pos + 1) false h0 h1 h2 h3
  generalize b0 + 256 * b1 + 65536 * b2 + 16777216 * b3 = L at hl ⊢
  simp only [fetch_job, fgetc, hl, job_type_of_byte ty hty, fread, Bool.not_false, Bool.true_and,
    Bool.or_eq_true, decide_eq_true_eq, Bool.false_or, if_true]
  by_cases hL : L > 54378
  · simp [hL]
  · by_cases h79 : ty = 79
    · simp [hL, h79, TYPE_O, Nat.add_assoc]
    · by_cases h69 : ty = 69
      · simp [hL, h69, TYPE_E, Nat.add_assoc]
      · simp [hL, h79, h69]

theorem create_msg_job_ne_end (e : Env) (c L : Nat) (job_text : List Nat)
    (hc : c = TYPE_O ∨ c = TYPE_E) :
    create_msg e c L job_text ≠ create_msg e TYPE_Q 0 [] := by
  intro h
  have h1 := congrArg JobMessage.job_info h
  rw [create_msg_job e c L job_text hc, create_msg_end] at h1
  simp only at h1
  have := checksum_lt e job_text
  rcases hc with hc | hc <;> simp only [hc, TYPE_O, TYPE_E] at h1 <;> omega

theorem job_buffer_complete (e : Env) (text : List Nat) :
    job_buffer e text text.length = text ++ [0] := by
  simp [job_buffer]

/-- C4 (as amended): read at a cursor where end of input has not been hit,
`fetch_job` returns the End message if and only if the input ends within the
5-byte header, or the type byte is neither 'O' nor 'E', or the declared length
exceeds 54378; otherwise, for a complete record, it returns category Out for
'O' and Err for 'E', the length `b0 + 256*b1 + 65536*b2 + 16777216*b3`, as
text the record's text up to its first NUL followed by NUL bytes (the
record's text itself when that is NUL-free), and the cursor 5 + length
further; the NULL file pointer yields End. -/
theorem fetch_job_record_format (e : Env) (f : FILE) (hf : f.eof = false)
    (hb : IsBytes f.rest) :
    ((fetch_job e (some f)).1 = create_msg e TYPE_Q 0 [] ↔
        (f.rest.length < 5 ∨ (typeByte f.rest ≠ 79 ∧ typeByte f.rest ≠ 69)
          ∨ declaredLength f.rest > 54378))
      ∧ (5 ≤ f.rest.length → (typeByte f.rest = 79 ∨ typeByte f.rest = 69) →
          declaredLength f.rest ≤ 54378 → 5 + declaredLength f.rest ≤ f.rest.length →
          (fetch_job e (some f)).1.job_info / 32
              = (if typeByte f.rest = 79 then TYPE_O else TYPE_E)
            ∧ ntohl e (fetch_job e (some f)).1.text_length = declaredLength f.rest
            ∧ (fetch_job e (some f)).1.job_text.take (declaredLength f.rest)
                = (recordText f.rest).take (strlen (recordText f.rest ++ [0]))
                    ++ List.replicate
                        (declaredLength f.rest - strlen (recordText f.rest ++ [0])) 0
            ∧ (NulFree (recordText f.rest) →
                (fetch_job e (some f)).1.job_text.take (declaredLength f.rest)
                  = recordText f.rest)
            ∧ (fetch_job e (some f)).2
                = some { rest := f.rest.drop (5 + declaredLength f.rest),
                         pos := f.pos + (5 + declaredLength f.rest), eof := false })
      ∧ fetch_job e none = (create_msg e TYPE_Q 0 [], none) := by
  obtain ⟨rest, pos, eof⟩ := f
  simp only at hf hb
  subst hf
  refine ⟨?_, ?_, rfl⟩
  · by_cases hshort : rest.length < 5
    · rw [fetch_job_short e _ hshort]
      simp [hshort]
    · match rest, hb, hshort with
      | [], _, h => simp at h
      | [_], _, h => simp at h
      | [_, _], _, h => simp at h
      | [_, _, _], _, h => simp at h
      | [_, _, _, _], _, h => simp at h
      | ty :: b0 :: b1 :: b2 :: b3 :: body, hb, _ =>
        have hty : ty < 256 := hb ty (by simp)
        have h0 : b0 < 256 := hb b0 (by simp)
        have h1 : b1 < 256 := hb b1 (by simp)
        have h2 : b2 < 256 := hb b2 (by simp)
        have h3 : b3 < 256 := hb b3 (by simp)
        rw [fetch_job_header e ty b0 b1 b2 b3 body pos hty h0 h1 h2 h3]
        simp only [typeByte, declaredLength, List.getD_cons_zero, List.getD_cons_succ,
          List.length_cons]
        by_cases hc : b0 + 256 * b1 + 65536 * b2 + 16777216 * b3 > 54378 ∨ (ty ≠ 79 ∧ ty ≠ 69)
        · rw [if_pos hc]
          simp only [true_iff]
          rcases hc with hc | hc
          · exact Or.inr (Or.inr hc)
          · exact Or.inr (Or.inl hc)
        · rw [if_neg hc]
          have hc1 : ¬ (b0 + 256 * b1 + 65536 * b2 + 16777216 * b3 > 54378) :=
            fun h => hc (Or.inl h)
          have hc2 : ¬ (ty ≠ 79 ∧ ty ≠ 69) := fun h => hc (Or.inr h)
          have hne := create_msg_job_ne_end e (if ty = 79 then TYPE_O else TYPE_E)
            (b0 + 256 * b1 + 65536 * b2 + 16777216 * b3)
            (job_buffer e (body.take (b0 + 256 * b1 + 65536 * b2 + 16777216 * b3))
              (b0 + 256 * b1 + 65536 * b2 + 16777216 * b3))
            (by by_cases h : ty = 79 <;> simp [h])
          simp only [hne, false_iff, not_or, not_lt]
          exact ⟨by omega, hc2, by omega⟩
  · intro hlen hty hL hcomplete
    match rest, hb, hlen, hty, hL, hcomplete with
    | ty :: b0 :: b1 :: b2 :: b3 :: body, hb, _, hty, hL, hcomplete =>
      have hty8 : ty < 256 := hb ty (by simp)
      have h0 : b0 < 256 := hb b0 (by simp)
      have h1 : b1 < 256 := hb b1 (by simp)
      have h2 : b2 < 256 := hb b2 (by simp)
      have h3 : b3 < 256 := hb b3 (by simp)
      rw [fetch_job_header e ty b0 b1 b2 b3 body pos hty8 h0 h1 h2 h3]
      simp only [typeByte, declaredLength, recordText, List.getD_cons_zero, List.getD_cons_succ,
        List.length_cons, List.drop_succ_cons, List.drop_zero] at hty hL hcomplete ⊢
      generalize b0 + 256 * b1 + 65536 * b2 + 16777216 * b3 = L at hL hcomplete ⊢
      have hcond : ¬ (L > 54378 ∨ (ty ≠ 79 ∧ ty ≠ 69)) := by
        rintro (h | h)
        · omega
        · rcases hty with h' | h'
          · exact h.1 h'
          · exact h.2 h'
      rw [if_neg hcond]
      have hbl : L ≤ body.length := by omega
      have htl : (body.take L).length = L := by simp [hbl]
      have hbuf : job_buffer e (body.take L) L = body.take L ++ [0] := by
        have := job_buffer_complete e (body.take L)
        rwa [htl] at this
      have hcat : (if ty = 79 then TYPE_O else TYPE_E) = TYPE_O
          ∨ (if ty = 79 then TYPE_O else TYPE_E) = TYPE_E := by
        by_cases h : ty = 79 <;> simp [h]
      have hmsg := create_msg_job e (if ty = 79 then TYPE_O else TYPE_E) L
        (body.take L ++ [0]) hcat
      have htxt := create_msg_text_take e (if ty = 79 then TYPE_O else TYPE_E) (body.take L) hcat
      rw [htl] at htxt
      have hk := strlen_cstring_le (body.take L) []
      rw [htl] at hk
      have hcs := checksum_lt e (body.take L ++ [0])
      have htake : (create_msg e (if ty = 79 then TYPE_O else TYPE_E) L
            (body.take L ++ [0])).job_text.take L
          = (body.take L).take (strlen (body.take L ++ [0]))
              ++ List.replicate (L - strlen (body.take L ++ [0])) 0 := by
        rw [htxt]
        split
        · rename_i h0; subst h0; simp
        · rw [List.take_left']
          simp only [List.length_append, List.length_take, List.length_replicate]
          omega
      simp only [hbuf]
      refine ⟨?_, ?_, htake, ?_, ?_⟩
      · rw [hmsg]
        simp only
        rcases hcat with h | h <;> rw [h] <;> simp only [TYPE_O, TYPE_E] <;> omega
      · rw [hmsg]
        exact ntohl_htonl e L (by omega)
      · intro hn
        rw [htake, strlen_append_nul _ [] hn]
        simp [htl]
      · have hm : min L body.length = L := by omega
        have hd : decide (body.length < L) = false := by simp; omega
        rw [hm, hd]
        congr 2
        · rw [Nat.add_comm 5 L]
          rfl
        · omega

theorem fetch_job_record_format_witness :
    (fetch_job envX (some (fopen srcHiBye))).1.job_text.take (declaredLength srcHiBye)
      = recordText srcHiBye :=
  ((fetch_job_record_format envX (fopen srcHiBye) rfl (by decide)).2.1
    (by decide) (by decide) (by decide) (by decide)).2.2.2.1 (by decide)

/-- C4, counterexample to the claim as stated: the file holds the complete
record 'O', length 2, text NUL 'A'; the message `fetch_job` returns has the
text NUL NUL, not the two bytes that follow the header. -/
theorem fetch_job_text_counterexample :
    typeByte srcNulA = 79 ∧ declaredLength srcNulA = 2 ∧ 5 + 2 ≤ srcNulA.length
      ∧ recordText srcNulA = [0, 65]
      ∧ (fetch_job envX (some (fopen srcNulA))).1.job_text.take 2 = [0, 0]
      ∧ (fetch_job envX (some (fopen srcNulA))).1.job_text.take (declaredLength srcNulA)
          ≠ recordText srcNulA := by
  decide

/-! ## Exhaustion of the job source -/

theorem fgetc_eof (f : FILE) (h : f.eof = true) : (fgetc f).2.eof = true := by
  obtain ⟨rest, pos, eof⟩ := f
  cases rest <;> simp_all [fgetc]

theorem length_loop_eof (n i acc : Nat) (f : FILE) (h : f.eof = true) :
    (length_loop n i acc f).2.eof = true := by
  induction n generalizing i acc f with
  | zero => simpa [length_loop] using h
  | succ n ih =>
    simp only [length_loop]
    exact ih _ _ _ (fgetc_eof f h)

theorem fetch_job_eof (e : Env) (f : FILE) (h : f.eof = true) :
    (fetch_job e (some f)).1 = create_msg e TYPE_Q 0 []
      ∧ ∃ f1, (fetch_job e (some f)).2 = some f1 ∧ f1.eof = true := by
  have h2 := length_loop_eof 4 0 0 (fgetc f).2 (fgetc_eof f h)
  simp only [fetch_job]
  rcases hh : length_loop 4 0 0 (fgetc f).2 with ⟨tl, f2⟩
  rw [hh] at h2
  simp only at h2
  simp only [h2, Bool.not_true, Bool.false_and, Bool.false_eq_true, if_false]
  exact ⟨trivial, f2, rfl, h2⟩

/-- The job source is exhausted: the file pointer is NULL or the end-of-file
indicator is set. -/
theorem after_calls_exhausted (e : Env) (n : Nat) (file : Option FILE)
    (h : file = none ∨ ∃ f, file = some f ∧ f.eof = true) :
    (fetch_job e (after_calls e n file)).1 = create_msg e TYPE_Q 0 [] := by
  induction n generalizing file with
  | zero =>
    rcases h with h | ⟨f, h, hf⟩
    · subst h; rfl
    · subst h; exact (fetch_job_eof e f hf).1
  | succ n ih =>
    simp only [after_calls]
    apply ih
    rcases h with h | ⟨f, h, hf⟩
    · subst h; exact Or.inl rfl
    · subst h
      obtain ⟨f1, h1, h2⟩ := (fetch_job_eof e f hf).2
      exact Or.inr ⟨f1, h1, h2⟩

theorem fetch_job_malformed (e : Env) (f : FILE) (hf : f.eof = false) (hb : IsBytes f.rest)
    (hlen : 5 ≤ f.rest.length)
    (hbad : (typeByte f.rest ≠ 79 ∧ typeByte f.rest ≠ 69) ∨ declaredLength f.rest > 54378) :
    fetch_job e (some f)
      = (create_msg e TYPE_Q 0 [],
         some { rest := f.rest.drop 5, pos := f.pos + 5, eof := false }) := by
  obtain ⟨rest, pos, eof⟩ := f
  simp only at hf hb hlen hbad ⊢
  subst hf
  match rest, hb, hlen, hbad with
  | ty :: b0 :: b1 :: b2 :: b3 :: body, hb, _, hbad =>
    have hty : ty < 256 := hb ty (by simp)
    have h0 : b0 < 256 := hb b0 (by simp)
    have h1 : b1 < 256 := hb b1 (by simp)
    have h2 : b2 < 256 := hb b2 (by simp)
    have h3 : b3 < 256 := hb b3 (by simp)
    rw [fetch_job_header e ty b0 b1 b2 b3 body pos hty h0 h1 h2 h3]
    simp only [typeByte, declaredLength, List.getD_cons_zero, List.getD_cons_succ] at hbad
    have hc : b0 + 256 * b1 + 65536 * b2 + 16777216 * b3 > 54378 ∨ (ty ≠ 79 ∧ ty ≠ 69) :=
      hbad.symm
    rw [if_pos hc]
    rfl

/-- C5 (as amended): exhaustion is sticky after end of input: once
`fetch_job` has returned End because the input ended (within a header, or
earlier), or on the NULL file pointer, every later call returns End.  After
an End caused by an unknown type byte or by a declared length over 54378
the cursor stands 5 bytes further with the end-of-file indicator clear, so
the next call decodes the bytes that follow. -/
theorem exhaustion_sticky_after_end_of_input (e : Env) (f : FILE) :
    ((f.rest.length < 5 ∨ f.eof = true) →
        ∀ n, (fetch_job e (after_calls e n (some f))).1 = create_msg e TYPE_Q 0 [])
      ∧ (∀ n, (fetch_job e (after_calls e n none)).1 = create_msg e TYPE_Q 0 [])
      ∧ (f.eof = false → IsBytes f.rest → 5 ≤ f.rest.length →
          ((typeByte f.rest ≠ 79 ∧ typeByte f.rest ≠ 69) ∨ declaredLength f.rest > 54378) →
          fetch_job e (some f)
            = (create_msg e TYPE_Q 0 [],
               some { rest := f.rest.drop 5, pos := f.pos + 5, eof := false })) := by
  refine ⟨?_, fun n => after_calls_exhausted e n none (Or.inl rfl), ?_⟩
  · intro h n
    rcases h with h | h
    · cases n with
      | zero => simp only [after_calls, fetch_job_short e f h]
      | succ n =>
        simp only [after_calls, fetch_job_short e f h]
        exact after_calls_exhausted e n _ (Or.inr ⟨_, rfl, rfl⟩)
    · exact after_calls_exhausted e n _ (Or.inr ⟨f, rfl, h⟩)
  · exact fetch_job_malformed e f

theorem exhaustion_sticky_after_end_of_input_witness :
    (fetch_job envX (after_calls envX 3 (some (fopen [79, 2, 0])))).1
        = create_msg envX TYPE_Q 0 []
      ∧ fetch_job envX (some (fopen srcXA))
          = (create_msg envX TYPE_Q 0 [],
             some { rest := (fopen srcXA).rest.drop 5, pos := (fopen srcXA).pos + 5,
                    eof := false }) :=
  ⟨(exhaustion_sticky_after_end_of_input envX (fopen [79, 2, 0])).1 (Or.inl (by decide)) 3,
   (exhaustion_sticky_after_end_of_input envX (fopen srcXA)).2.2 rfl (by decide) (by decide)
     (Or.inl (by decide))⟩

/-- C5, counterexample to the claim as stated: in a file whose first record
has the unknown type 'X' (or declares the length 65535) and whose second
record is O:"A", the first call of `fetch_job` returns End and the second
call returns the Out job "A". -/
theorem exhaustion_not_sticky_counterexample :
    (fetch_job envX (some (fopen srcXA))).1 = create_msg envX TYPE_Q 0 []
      ∧ (fetch_job envX (after_calls envX 1 (some (fopen srcXA)))).1
          = { job_info := 1, text_length := htonl envX 1, job_text := [65, 0] }
      ∧ (fetch_job envX (after_calls envX 1 (some (fopen srcXA)))).1
          ≠ create_msg envX TYPE_Q 0 []
      ∧ (fetch_job envX (some (fopen srcBigA))).1 = create_msg envX TYPE_Q 0 []
      ∧ (fetch_job envX (after_calls envX 1 (some (fopen srcBigA)))).1
          ≠ create_msg envX TYPE_Q 0 [] := by
  decide

/-! ## When `send_message` reports stop -/

theorem send_fetched_status (e : Env) (msg : JobMessage) (client_sock : Chan) :
    (send_fetched e msg client_sock).1 = if msg.text_length = 0 then 1 else 0 := by
  unfold send_fetched
  by_cases h : msg.text_length = 0 <;> simp [h]

theorem fetch_job_length (e : Env) (file : Option FILE) :
    ∃ L, L ≤ 54378 ∧ (fetch_job e file).1.text_length = htonl e L := by
  rcases fetch_job_shape e file with h | ⟨c, buf, hc, hlen, h⟩
  · exact ⟨0, by omega, by rw [h, create_msg_end, htonl_zero]⟩
  · exact ⟨buf.length, hlen, by rw [h, create_msg_job e c _ _ hc]⟩

theorem send_message_zero_length (e : Env) (ty : Nat) (body : List Nat) (pos : Nat)
    (out : List Nat) (hty : ty = 79 ∨ ty = 69) :
    send_message e ⟨out, []⟩ (some ⟨ty :: 0 :: 0 :: 0 :: 0 :: body, pos, false⟩)
      = (1, ⟨out ++ [if ty = 79 then 0 else 32, 0, 0, 0, 0], []⟩,
          some ⟨body, pos + 5, false⟩) := by
  have hty8 : ty < 256 := by rcases hty with h | h <;> omega
  have hcond : ¬ (0 + 256 * 0 + 65536 * 0 + 16777216 * 0 > 54378 ∨ (ty ≠ 79 ∧ ty ≠ 69)) := by
    rintro (h | h)
    · omega
    · rcases hty with h1 | h1
      · exact h.1 h1
      · exact h.2 h1
  have hcat : (if ty = 79 then TYPE_O else TYPE_E) = TYPE_O
      ∨ (if ty = 79 then TYPE_O else TYPE_E) = TYPE_E := by
    by_cases h : ty = 79 <;> simp [h]
  have hs := send_fetched_job e (if ty = 79 then TYPE_O else TYPE_E) [] out hcat (by simp)
  have hcs : checksum e ([] ++ [0]) = 0 := by simp [checksum, strlen]
  have ht := create_msg_text_take e (if ty = 79 then TYPE_O else TYPE_E) [] hcat
  rw [hcs, ht] at hs
  simp only [send_message,
    fetch_job_header e ty 0 0 0 0 body pos hty8 (by omega) (by omega) (by omega) (by omega),
    if_neg hcond]
  have hb : job_buffer e (List.take (0 + 256 * 0 + 65536 * 0 + 16777216 * 0) body)
      (0 + 256 * 0 + 65536 * 0 + 16777216 * 0) = [] ++ [0] := by
    simp [job_buffer]
  rw [hb]
  simp only [Nat.mul_zero, Nat.add_zero, List.length_nil] at hs ⊢
  rw [hs]
  by_cases h : ty = 79 <;> simp [h, beBytes, TYPE_O, TYPE_E]

/-- C7 (as amended): `send_message` reports stop (returns 1) if and only if
the text length of the message it sent is 0, and returns 0 otherwise.  This
is so for the End message, and also for a valid 'O' or 'E' record whose
declared length is 0: that record is sent as the five-byte Out or Err frame
`category * 32, 0, 0, 0, 0` and `send_message` returns 1, so that serving
stops at it. -/
theorem send_message_stops_on_empty_text (e : Env) (client_sock : Chan) (file : Option FILE)
    (ty : Nat) (body : List Nat) (pos : Nat) (out : List Nat) (hty : ty = 79 ∨ ty = 69) :
    ((send_message e client_sock file).1 = 1 ↔ ntohl e (fetch_job e file).1.text_length = 0)
      ∧ ((send_message e client_sock file).1 = 0
          ↔ ntohl e (fetch_job e file).1.text_length ≠ 0)
      ∧ ((fetch_job e file).1 = create_msg e TYPE_Q 0 [] → (send_message e client_sock file).1 = 1)
      ∧ send_message e ⟨out, []⟩ (some ⟨ty :: 0 :: 0 :: 0 :: 0 :: body, pos, false⟩)
          = (1, ⟨out ++ [if ty = 79 then 0 else 32, 0, 0, 0, 0], []⟩,
              some ⟨body, pos + 5, false⟩) := by
  obtain ⟨L, hL, hlen⟩ := fetch_job_length e file
  have hst : (send_message e client_sock file).1
      = if (fetch_job e file).1.text_length = 0 then 1 else 0 := by
    simp only [send_message]
    exact send_fetched_status e _ _
  have hz : (fetch_job e file).1.text_length = 0 ↔ L = 0 := by
    rw [hlen]; exact htonl_eq_zero e L (by omega)
  have hn : ntohl e (fetch_job e file).1.text_length = L := by
    rw [hlen]; exact ntohl_htonl e L (by omega)
  refine ⟨?_, ?_, ?_, send_message_zero_length e ty body pos out hty⟩
  · rw [hst, hn]
    by_cases h : L = 0
    · simp [hz.2 h, h]
    · simp [mt hz.1 h, h]
  · rw [hst, hn]
    by_cases h : L = 0
    · simp [hz.2 h, h]
    · simp [mt hz.1 h, h]
  · intro hend
    rw [hst, hend, create_msg_end]
    rfl

theorem send_message_stops_on_empty_text_witness :
    send_message envX ⟨[], []⟩ (some ⟨79 :: 0 :: 0 :: 0 :: 0 :: [79, 1, 0, 0, 0, 65], 0, false⟩)
      = (1, ⟨[] ++ [if 79 = 79 then 0 else 32, 0, 0, 0, 0], []⟩,
          some ⟨[79, 1, 0, 0, 0, 65], 0 + 5, false⟩) :=
  (send_message_stops_on_empty_text envX ⟨[], []⟩ none 79 [79, 1, 0, 0, 0, 65] 0 []
    (Or.inl rfl)).2.2.2

/-- C7, counterexample to the claim as stated: the first record of the file
is a valid 'O' record of declared length 0.  `send_message` sends it as an
Out frame (category 0, not End) and returns 1; a request for 5 jobs ends
there with status 1, and the record O:"A" that follows is not served. -/
theorem zero_length_record_stops_counterexample :
    (send_message envX ⟨[], []⟩ (some (fopen srcZeroA))).1 = 1
      ∧ (fetch_job envX (some (fopen srcZeroA))).1.job_info / 32 = TYPE_O
      ∧ (fetch_job envX (some (fopen srcZeroA))).1.job_info / 32 ≠ TYPE_Q
      ∧ process_request envX 0 ⟨false, [some 5], ⟨[], []⟩, some (fopen srcZeroA)⟩
          = .ret 1 ⟨false, [], ⟨[0, 0, 0, 0, 0], []⟩, some ⟨[79, 1, 0, 0, 0, 65], 5, false⟩⟩ := by
  decide

/-! ## Serving a number of jobs -/

theorem send_message_eof (e : Env) (out : List Nat) (pos : Nat) (eof : Bool) :
    send_message e ⟨out, []⟩ (some ⟨[], pos, eof⟩)
      = (1, ⟨out ++ endFrame, []⟩, some ⟨[], pos, true⟩) := by
  simp only [send_message, fetch_job_short e ⟨[], pos, eof⟩ (by simp), send_fetched_end]
  rfl

theorem send_message_null (e : Env) (out : List Nat) :
    send_message e ⟨out, []⟩ none = (1, ⟨out ++ endFrame, []⟩, none) := by
  simp only [send_message, fetch_job, send_fetched_end]

theorem fetch_job_record (e : Env) (c : Nat) (t tail : List Nat) (pos : Nat)
    (hc : c = TYPE_O ∨ c = TYPE_E) (hlen : t.length ≤ 54378) :
    fetch_job e (some ⟨recordBytes (typeChar c) t ++ tail, pos, false⟩)
      = (create_msg e c t.length (t ++ [0]), some ⟨tail, pos + 5 + t.length, false⟩) := by
  have hty : typeChar c = 79 ∨ typeChar c = 69 := by
    unfold typeChar; by_cases h : c = TYPE_O <;> simp [h]
  have hty8 : typeChar c < 256 := by rcases hty with h | h <;> omega
  have hcat : (if typeChar c = 79 then TYPE_O else TYPE_E) = c := by
    unfold typeChar
    rcases hc with h | h <;> simp [h, TYPE_O, TYPE_E]
  have hL : t.length % 256 + 256 * (t.length / 256 % 256) + 65536 * (t.length / 65536 % 256)
      + 16777216 * (t.length / 16777216 % 256) = t.length := by omega
  have hcond : ¬ (t.length > 54378 ∨ (typeChar c ≠ 79 ∧ typeChar c ≠ 69)) := by
    rintro (h | h)
    · omega
    · rcases hty with h1 | h1
      · exact h.1 h1
      · exact h.2 h1
  have hh := fetch_job_header e (typeChar c) (t.length % 256) (t.length / 256 % 256)
    (t.length / 65536 % 256) (t.length / 16777216 % 256) (t ++ tail) pos hty8
    (Nat.mod_lt _ (by decide)) (Nat.mod_lt _ (by decide)) (Nat.mod_lt _ (by decide))
    (Nat.mod_lt _ (by decide))
  rw [hL, if_neg hcond, hcat, List.take_left' rfl, List.drop_left' rfl, job_buffer_complete] at hh
  simp only [recordBytes, leBytes, List.cons_append, List.append_assoc, List.nil_append] at hh ⊢
  rw [hh]
  simp

theorem send_message_record (e : Env) (c : Nat) (t tail out : List Nat) (pos : Nat)
    (hc : c = TYPE_O ∨ c = TYPE_E) (hn : NulFree t) (hne : t ≠ []) (hlen : t.length ≤ 54378) :
    send_message e ⟨out, []⟩ (some ⟨recordBytes (typeChar c) t ++ tail, pos, false⟩)
      = (0, ⟨out ++ frame c t, []⟩, some ⟨tail, pos + (recordBytes (typeChar c) t).length, false⟩)
    := by
  have hty : typeChar c = 79 ∨ typeChar c = 69 := by
    unfold typeChar; by_cases h : c = TYPE_O <;> simp [h]
  have hty8 : typeChar c < 256 := by rcases hty with h | h <;> omega
  have hcat : (if typeChar c = 79 then TYPE_O else TYPE_E) = c := by
    unfold typeChar
    rcases hc with h | h <;> simp [h, TYPE_O, TYPE_E]
  have hL : t.length % 256 + 256 * (t.length / 256 % 256) + 65536 * (t.length / 65536 % 256)
      + 16777216 * (t.length / 16777216 % 256) = t.length := by omega
  have hcond : ¬ (t.length > 54378 ∨ (typeChar c ≠ 79 ∧ typeChar c ≠ 69)) := by
    rintro (h | h)
    · omega
    · rcases hty with h1 | h1
      · exact h.1 h1
      · exact h.2 h1
  have hpos : t.length > 0 := List.length_pos.mpr hne
  have hh := fetch_job_header e (typeChar c) (t.length % 256) (t.length / 256 % 256)
    (t.length / 65536 % 256) (t.length / 16777216 % 256) (t ++ tail) pos hty8
    (Nat.mod_lt _ (by decide)) (Nat.mod_lt _ (by decide)) (Nat.mod_lt _ (by decide))
    (Nat.mod_lt _ (by decide))
  rw [hL, if_neg hcond, hcat, List.take_left' rfl, List.drop_left' rfl, job_buffer_complete] at hh
  have hs := send_fetched_job e c t out hc hlen
  have ht := create_msg_text_take e c t hc
  rw [strlen_append_nul t [] hn] at ht
  have hcs := checksum_cstring e t [] hn
  rw [hcs, ht] at hs
  simp only [send_message, recordBytes, leBytes, List.cons_append, List.append_assoc,
    List.nil_append] at hh ⊢
  rw [hh]
  simp only [hs]
  have h0 : t.length ≠ 0 := by omega
  simp [h0, hpos, frame]
  omega

theorem serve_jobs_one (e : Env) (client_sock : Chan) (fileptr : Option FILE) :
    serve_jobs e 1 client_sock fileptr = send_message e client_sock fileptr := by
  simp only [serve_jobs]
  rcases send_message e client_sock fileptr with ⟨st, ch, f⟩
  by_cases h : st = 0 <;> simp [h]

theorem serve_jobs_records (e : Env) (n : Nat) (records : List (Nat × List Nat))
    (hvalid : ∀ r ∈ records, ValidJob r) (out : List Nat) (pos : Nat) :
    serve_jobs e n ⟨out, []⟩ (some ⟨fileOf records, pos, false⟩)
      = (if records.length < n then 1 else 0,
         ⟨out ++ framesOf (records.take n)
            ++ (if records.length < n then endFrame else []), []⟩,
         some ⟨fileOf (records.drop n), pos + (fileOf (records.take n)).length,
           decide (records.length < n)⟩) := by
  induction n generalizing records out pos with
  | zero => simp [serve_jobs, fileOf, framesOf]
  | succ n ih =>
    cases records with
    | nil =>
      simp [serve_jobs, fileOf, framesOf, send_message_eof]
    | cons r rs =>
      obtain ⟨hc, hn, hne, hlen⟩ := hvalid r (by simp)
      have hrs : ∀ r ∈ rs, ValidJob r := fun x hx => hvalid x (by simp [hx])
      simp only [serve_jobs, fileOf, send_message_record e r.1 r.2 (fileOf rs) out pos hc hn hne hlen,
        ne_eq, not_true_eq_false, if_false, ih rs hrs]
      simp [framesOf, fileOf, Nat.add_assoc]

theorem land_127 : ∀ n, n < 128 → n &&& 127 = n := by decide

theorem send_message_first_write_one (e : Env) (c : Nat) (t tail out : List Nat) (pos : Nat)
    (hc : c = TYPE_O ∨ c = TYPE_E) (hn : NulFree t) (hne : t ≠ []) (hlen : t.length ≤ 54378) :
    send_message e ⟨out, [0]⟩ (some ⟨recordBytes (typeChar c) t ++ tail, pos, false⟩)
      = (0, ⟨out ++ (c * 32 + t.sum % 32) ::
              (t ++ 0 :: (List.range 4).map (fun i => e.junk (t.length + 6 + i) % 256)), []⟩,
          some ⟨tail, pos + 5 + t.length, false⟩) := by
  simp only [send_message, fetch_job_record e c t tail pos hc hlen,
    send_fetched_first_write_one e c t out hc hn hne hlen]

theorem serve_jobs_first_write_one (e : Env) (n : Nat) (r : Nat × List Nat)
    (rs : List (Nat × List Nat)) (hr : ValidJob r) (hvalid : ∀ x ∈ rs, ValidJob x)
    (out : List Nat) (pos : Nat) :
    serve_jobs e (n + 1) ⟨out, [0]⟩ (some ⟨fileOf (r :: rs), pos, false⟩)
      = (if rs.length < n then 1 else 0,
         ⟨out ++ (r.1 * 32 + r.2.sum % 32) ::
              (r.2 ++ 0 :: (List.range 4).map (fun i => e.junk (r.2.length + 6 + i) % 256))
            ++ framesOf (rs.take n) ++ (if rs.length < n then endFrame else []), []⟩,
         some ⟨fileOf (rs.drop n), pos + 5 + r.2.length + (fileOf (rs.take n)).length,
           decide (rs.length < n)⟩) := by
  obtain ⟨hc, hn, hne, hlen⟩ := hr
  simp only [serve_jobs, fileOf,
    send_message_first_write_one e r.1 r.2 (fileOf rs) out pos hc hn hne hlen, ne_eq,
    not_true_eq_false, if_false, serve_jobs_records e n rs hvalid]

theorem send_fetched_chan (e : Env) (msg : JobMessage) (ch1 ch2 : Chan) :
    (send_fetched e msg ch1).1 = (send_fetched e msg ch2).1
      ∧ (send_fetched e msg ch1).2.out.length + ch2.out.length
          = (send_fetched e msg ch2).2.out.length + ch1.out.length := by
  simp only [send_fetched, true_and]
  rw [write_loop_length e msg _ _ 0 ch1 (by omega) (by omega),
    write_loop_length e msg _ _ 0 ch2 (by omega) (by omega)]
  omega

theorem send_message_chan (e : Env) (ch1 ch2 : Chan) (file : Option FILE) :
    (send_message e ch1 file).1 = (send_message e ch2 file).1
      ∧ (send_message e ch1 file).2.2 = (send_message e ch2 file).2.2
      ∧ (send_message e ch1 file).2.1.out.length + ch2.out.length
          = (send_message e ch2 file).2.1.out.length + ch1.out.length := by
  rcases hfj : fetch_job e file with ⟨msg, f⟩
  have h := send_fetched_chan e msg ch1 ch2
  simp only [send_message, hfj]
  exact ⟨h.1, trivial, h.2⟩

theorem serve_jobs_chan (e : Env) (n : Nat) (ch1 ch2 : Chan) (file : Option FILE) :
    (serve_jobs e n ch1 file).1 = (serve_jobs e n ch2 file).1
      ∧ (serve_jobs e n ch1 file).2.2 = (serve_jobs e n ch2 file).2.2
      ∧ (serve_jobs e n ch1 file).2.1.out.length + ch2.out.length
          = (serve_jobs e n ch2 file).2.1.out.length + ch1.out.length := by
  induction n generalizing ch1 ch2 file with
  | zero => exact ⟨rfl, rfl, Nat.add_comm _ _⟩
  | succ n ih =>
    obtain ⟨hs, hf, hl⟩ := send_message_chan e ch1 ch2 file
    rcases h1 : send_message e ch1 file with ⟨st1, c1, f1⟩
    rcases h2 : send_message e ch2 file with ⟨st2, c2, f2⟩
    rw [h1, h2] at hs hf hl
    simp only at hs hf hl
    subst hs hf
    simp only [serve_jobs, h1, h2]
    by_cases hst : st1 = 0
    · simp only [hst, ne_eq, not_true_eq_false, if_false]
      obtain ⟨i1, i2, i3⟩ := ih c1 c2 f1
      exact ⟨i1, i2, by omega⟩
    · simp only [ne_eq, hst, not_false_eq_true, if_true]
      exact ⟨trivial, trivial, hl⟩

theorem process_request_serve (e : Env) (N : Nat) (hN1 : 1 ≤ N) (hN2 : N ≤ 126)
    (interrupted : Bool) (reqs : List (Option Nat)) (sock : Chan) (file : Option FILE)
    (fuel : Nat) :
    process_request e fuel ⟨interrupted, some N :: reqs, sock, file⟩
      = .ret (serve_jobs e N sock file).1
          ⟨interrupted, reqs, (serve_jobs e N sock file).2.1, (serve_jobs e N sock file).2.2⟩ := by
  have h0 : N ≠ 0 := by omega
  simp only [process_request, List.headD_cons, List.tail_cons, h0, if_false]
  by_cases h1 : N = ONE_JOB_REQUEST
  · have h1' : N = 1 := h1
    subst h1'
    rw [if_pos h1, serve_jobs_one]
  · have h2 : N < ALL_JOBS_REQUEST := by simp only [ALL_JOBS_REQUEST]; omega
    rw [if_neg h1, if_pos h2, land_127 N (by omega)]

theorem text_ne_frame (c i : Nat) (t x y : List Nat) (hn : NulFree t) (hne : t ≠ [])
    (hlen : t.length ≤ 54378) : i :: (t ++ x) ≠ frame c t ++ y := by
  cases t with
  | nil => exact absurd rfl hne
  | cons a t1 =>
    have ha := hn a (by simp)
    simp only [List.length_cons] at hlen
    have hd : (t1.length + 1) / 16777216 = 0 := by omega
    simp only [frame, beBytes, List.length_cons, hd, List.cons_append, ne_eq, List.cons.injEq,
      not_and]
    intro _ h
    omega

/-- C6: for a request byte N in 1..126 and a source whose remaining content is
M valid records with non-empty NUL-free text followed by end of input.  When
every write is accepted in full, `process_request` returns, having written
the job frames of the first min(N, M) records in file order; when M < N these
are followed by exactly one End frame and the status is 1, when M >= N no End
frame is written and the status is 0.  Whatever the writes accept,
`process_request` returns with this status, the job file advanced by these
records and as many bytes written as these frames have.  The code at the
failing input: when the first `write` accepts one byte only, the bytes written
for the first record are its info byte, its text, a NUL and four bytes from
beyond the message, and what is written is not the frames. -/
theorem fetch_n_semantics (e : Env) (N : Nat) (hN1 : 1 ≤ N) (hN2 : N ≤ 126)
    (records : List (Nat × List Nat)) (hvalid : ∀ r ∈ records, ValidJob r)
    (interrupted : Bool) (reqs : List (Option Nat)) (out : List Nat) (pos fuel : Nat) :
    process_request e fuel ⟨interrupted, some N :: reqs, ⟨out, []⟩,
        some ⟨fileOf records, pos, false⟩⟩
      = .ret (if records.length < N then 1 else 0)
          ⟨interrupted, reqs,
            ⟨out ++ framesOf (records.take N)
              ++ (if records.length < N then endFrame else []), []⟩,
            some ⟨fileOf (records.drop N), pos + (fileOf (records.take N)).length,
              decide (records.length < N)⟩⟩
      ∧ (records.take N).length = min N records.length
      ∧ (∀ sock : Chan, ∃ sock1 : Chan,
          process_request e fuel ⟨interrupted, some N :: reqs, sock,
              some ⟨fileOf records, pos, false⟩⟩
            = .ret (if records.length < N then 1 else 0)
                ⟨interrupted, reqs, sock1,
                  some ⟨fileOf (records.drop N), pos + (fileOf (records.take N)).length,
                    decide (records.length < N)⟩⟩
          ∧ sock1.out.length = sock.out.length
              + (framesOf (records.take N)
                  ++ (if records.length < N then endFrame else [])).length)
      ∧ (∀ r rs, records = r :: rs →
          process_request e fuel ⟨interrupted, some N :: reqs, ⟨out, [0]⟩,
              some ⟨fileOf records, pos, false⟩⟩
            = .ret (if records.length < N then 1 else 0)
                ⟨interrupted, reqs,
                  ⟨out ++ (r.1 * 32 + r.2.sum % 32) ::
                        (r.2 ++ 0 ::
                          (List.range 4).map (fun i => e.junk (r.2.length + 6 + i) % 256))
                      ++ framesOf (rs.take (N - 1))
                      ++ (if records.length < N then endFrame else []), []⟩,
                  some ⟨fileOf (records.drop N), pos + (fileOf (records.take N)).length,
                    decide (records.length < N)⟩⟩
          ∧ out ++ (r.1 * 32 + r.2.sum % 32) ::
                  (r.2 ++ 0 :: (List.range 4).map (fun i => e.junk (r.2.length + 6 + i) % 256))
                ++ framesOf (rs.take (N - 1))
                ++ (if records.length < N then endFrame else [])
              ≠ out ++ framesOf (records.take N)
                  ++ (if records.length < N then endFrame else [])) := by
  have hfull := serve_jobs_records e N records hvalid
  refine ⟨?_, List.length_take _ _, ?_, ?_⟩
  · rw [process_request_serve e N hN1 hN2, hfull out pos]
  · intro sock
    obtain ⟨h1, h2, h3⟩ := serve_jobs_chan e N sock ⟨[], []⟩ (some ⟨fileOf records, pos, false⟩)
    rw [hfull [] pos] at h1 h2 h3
    simp only [List.nil_append, List.length_nil, Nat.add_zero] at h1 h2 h3
    refine ⟨(serve_jobs e N sock (some ⟨fileOf records, pos, false⟩)).2.1, ?_, ?_⟩
    · rw [process_request_serve e N hN1 hN2, h1, h2]
    · omega
  · intro r rs hrec
    subst hrec
    obtain ⟨n, rfl⟩ : ∃ n, N = n + 1 := ⟨N - 1, by omega⟩
    have hr : ValidJob r := hvalid r (by simp)
    have hrs : ∀ x ∈ rs, ValidJob x := fun x hx => hvalid x (by simp [hx])
    constructor
    · rw [process_request_serve e (n + 1) hN1 hN2, serve_jobs_first_write_one e n r rs hr hrs]
      have hpos : pos + 5 + r.2.length + (fileOf (rs.take n)).length
          = pos + (fileOf ((r :: rs).take (n + 1))).length := by
        simp only [List.take_succ_cons, fileOf, List.length_append, recordBytes, leBytes,
          List.length_cons, List.length_nil]
        omega
      rw [hpos]
      simp only [List.length_cons, Nat.add_lt_add_iff_right, Nat.add_sub_cancel,
        List.drop_succ_cons]
    · simp only [Nat.add_sub_cancel, List.take_succ_cons, framesOf, List.append_assoc,
        List.cons_append, ne_eq, List.append_cancel_left_eq]
      exact text_ne_frame r.1 _ r.2 _ _ hr.2.1 hr.2.2.1 hr.2.2.2

theorem fetch_n_semantics_witness :
    process_request envX 0 ⟨false, some 3 :: [], ⟨[], []⟩,
        some ⟨fileOf [(0, [104, 105]), (1, [98, 121, 101])], 0, false⟩⟩
      = .ret 1 ⟨false, [],
          ⟨[17, 0, 0, 0, 2, 104, 105, 0, 32, 0, 0, 0, 3, 98, 121, 101, 0, 224, 0, 0, 0, 0], []⟩,
          some ⟨[], 15, true⟩⟩
      ∧ process_request envX 0 ⟨false, some 1 :: [], ⟨[], [0]⟩,
          some ⟨fileOf [(0, [104, 105])], 0, false⟩⟩
        = .ret 0 ⟨false, [], ⟨[17, 104, 105, 0, 170, 170, 170, 170], []⟩, some ⟨[], 7, false⟩⟩ :=
  ⟨Eq.trans (fetch_n_semantics envX 3 (by decide) (by decide)
      [(0, [104, 105]), (1, [98, 121, 101])] (by decide) false [] [] 0 0).1 (by decide),
    Eq.trans ((fetch_n_semantics envX 1 (by decide) (by decide)
      [(0, [104, 105])] (by decide) false [] [] 0 0).2.2.2 (0, [104, 105]) [] rfl).1 (by decide)⟩


/-! ## Serving all jobs -/

theorem fetch_job_progress (e : Env) (f : FILE) :
    ∃ f1, (fetch_job e (some f)).2 = some f1 ∧
      ((fetch_job e (some f)).1 = create_msg e TYPE_Q 0 []
        ∨ f1.rest.length + 5 ≤ f.rest.length) := by
  by_cases hshort : f.rest.length < 5
  · rw [fetch_job_short e f hshort]
    exact ⟨_, rfl, Or.inl rfl⟩
  · obtain ⟨rest, pos, eof⟩ := f
    match rest, hshort with
    | [], h => simp at h
    | [_], h => simp at h
    | [_, _], h => simp at h
    | [_, _, _], h => simp at h
    | [_, _, _, _], h => simp at h
    | ty :: b0 :: b1 :: b2 :: b3 :: body, _ =>
      simp only [fetch_job, fgetc, length_loop]
      split_ifs
      · exact ⟨_, rfl, Or.inl rfl⟩
      · refine ⟨_, rfl, Or.inr ?_⟩
        simp only [fread, List.length_drop, List.length_cons]
        omega
      · exact ⟨_, rfl, Or.inl rfl⟩

theorem send_message_progress (e : Env) (client_sock : Chan) (f : FILE) :
    ∃ f1, (send_message e client_sock (some f)).2.2 = some f1 ∧
      ((send_message e client_sock (some f)).1 ≠ 0 ∨ f1.rest.length + 5 ≤ f.rest.length) := by
  obtain ⟨f1, h1, h2⟩ := fetch_job_progress e f
  refine ⟨f1, by simpa only [send_message] using h1, ?_⟩
  rcases h2 with h2 | h2
  · left
    have : (send_message e client_sock (some f)).1
        = if (fetch_job e (some f)).1.text_length = 0 then 1 else 0 := by
      simp only [send_message]
      exact send_fetched_status e _ _
    rw [this, h2, create_msg_end]
    simp
  · exact Or.inr h2

theorem serve_all_terminates (e : Env) (fuel : Nat) (client_sock : Chan) (file : Option FILE)
    (hf : ∀ f, file = some f → f.rest.length < fuel) (hpos : 0 < fuel) :
    ∃ r, serve_all e fuel client_sock file = some r := by
  induction fuel generalizing client_sock file with
  | zero => omega
  | succ fuel ih =>
    simp only [serve_all]
    cases file with
    | none =>
      have : (send_message e client_sock none).1 ≠ 0 := by
        have h : (send_message e client_sock none).1
            = if (fetch_job e none).1.text_length = 0 then 1 else 0 := by
          simp only [send_message]
          exact send_fetched_status e _ _
        rw [h]
        simp [fetch_job, create_msg_end]
      rw [if_pos this]
      exact ⟨_, rfl⟩
    | some f =>
      obtain ⟨f1, h1, h2⟩ := send_message_progress e client_sock f
      by_cases hst : (send_message e client_sock (some f)).1 ≠ 0
      · rw [if_pos hst]
        exact ⟨_, rfl⟩
      · rw [if_neg hst, h1]
        have hlt := hf f rfl
        have hle : f1.rest.length + 5 ≤ f.rest.length := by
          rcases h2 with h2 | h2
          · exact absurd h2 hst
          · exact h2
        exact ih _ (some f1) (fun g hg => by cases hg; omega) (by omega)

theorem serve_all_records (e : Env) (records : List (Nat × List Nat))
    (hvalid : ∀ r ∈ records, ValidJob r) (stop out : List Nat) (pos fuel : Nat) :
    serve_all e (records.length + fuel) ⟨out, []⟩ (some ⟨fileOf records ++ stop, pos, false⟩)
      = serve_all e fuel ⟨out ++ framesOf records, []⟩
          (some ⟨stop, pos + (fileOf records).length, false⟩) := by
  induction records generalizing out pos with
  | nil => simp [fileOf, framesOf]
  | cons r rs ih =>
    obtain ⟨hc, hn, hne, hlen⟩ := hvalid r (by simp)
    have hrs : ∀ r ∈ rs, ValidJob r := fun x hx => hvalid x (by simp [hx])
    have hfuel : (r :: rs).length + fuel = (rs.length + fuel) + 1 := by
      simp only [List.length_cons]; omega
    rw [hfuel]
    simp only [serve_all, fileOf, List.append_assoc,
      send_message_record e r.1 r.2 (fileOf rs ++ stop) out pos hc hn hne hlen,
      ne_eq, not_true_eq_false, if_false, ih hrs]
    simp [framesOf, Nat.add_assoc]

theorem send_message_short (e : Env) (f : FILE) (out : List Nat) (h : f.rest.length < 5) :
    send_message e ⟨out, []⟩ (some f)
      = (1, ⟨out ++ endFrame, []⟩, some ⟨[], f.pos + f.rest.length, true⟩) := by
  simp only [send_message, fetch_job_short e f h, send_fetched_end]

theorem send_message_malformed (e : Env) (f : FILE) (out : List Nat) (hf : f.eof = false)
    (hb : IsBytes f.rest) (hlen : 5 ≤ f.rest.length)
    (hbad : (typeByte f.rest ≠ 79 ∧ typeByte f.rest ≠ 69) ∨ declaredLength f.rest > 54378) :
    send_message e ⟨out, []⟩ (some f)
      = (1, ⟨out ++ endFrame, []⟩, some ⟨f.rest.drop 5, f.pos + 5, false⟩) := by
  simp only [send_message, fetch_job_malformed e f hf hb hlen hbad, send_fetched_end]

theorem process_request_all (e : Env) (fuel : Nat) (interrupted : Bool)
    (reqs : List (Option Nat)) (client_sock : Chan) (file : Option FILE) :
    process_request e fuel ⟨interrupted, some 127 :: reqs, client_sock, file⟩
      = match serve_all e fuel client_sock file with
        | none => .timeout
        | some (cs, fp) => .ret 0 ⟨interrupted, reqs, cs, fp⟩ := rfl

theorem serve_all_stop (e : Env) (records : List (Nat × List Nat))
    (hvalid : ∀ r ∈ records, ValidJob r) (stop out : List Nat) (pos fuel : Nat)
    (hfuel : records.length < fuel) (last : List Nat) (file1 : Option FILE)
    (hstop : send_message e ⟨out ++ framesOf records, []⟩
        (some ⟨stop, pos + (fileOf records).length, false⟩) = (1, ⟨last, []⟩, file1)) :
    serve_all e fuel ⟨out, []⟩ (some ⟨fileOf records ++ stop, pos, false⟩)
      = some (⟨last, []⟩, file1) := by
  obtain ⟨k, hk⟩ : ∃ k, fuel = records.length + (k + 1) := ⟨fuel - records.length - 1, by omega⟩
  rw [hk, serve_all_records e records hvalid stop out pos (k + 1)]
  simp only [serve_all, hstop]
  simp

/-- C8 (as amended): `process_request` on request byte 127 terminates for
every finite job source and returns 0.  When the remaining content is valid
records with non-empty NUL-free text followed by the end of input, by an
unknown type byte or by an oversized length, the frames written (writes
accepted in full) are the job frames of these records in file order followed
by exactly one End frame.  When these records are followed by a valid record
of declared length 0, the last frame written is the zero-length Out or Err
frame of that record and no End frame is written. -/
theorem fetch_all_semantics (e : Env) (interrupted : Bool) (reqs : List (Option Nat))
    (client_sock : Chan) (file : Option FILE) (fuel : Nat)
    (hf : ∀ f, file = some f → f.rest.length < fuel) (hpos : 0 < fuel)
    (records : List (Nat × List Nat)) (hvalid : ∀ r ∈ records, ValidJob r)
    (stop out : List Nat) (pos : Nat) (hfuel : records.length < fuel) :
    (∃ s1, process_request e fuel ⟨interrupted, some 127 :: reqs, client_sock, file⟩
        = .ret 0 s1)
      ∧ ((stop.length < 5 ∨ (IsBytes stop ∧
            ((typeByte stop ≠ 79 ∧ typeByte stop ≠ 69) ∨ declaredLength stop > 54378))) →
          ∃ file1, process_request e fuel ⟨interrupted, some 127 :: reqs, ⟨out, []⟩,
              some ⟨fileOf records ++ stop, pos, false⟩⟩
            = .ret 0 ⟨interrupted, reqs, ⟨out ++ framesOf records ++ endFrame, []⟩, file1⟩)
      ∧ (∀ ty body, (ty = 79 ∨ ty = 69) → stop = ty :: 0 :: 0 :: 0 :: 0 :: body →
          ∃ file1, process_request e fuel ⟨interrupted, some 127 :: reqs, ⟨out, []⟩,
              some ⟨fileOf records ++ stop, pos, false⟩⟩
            = .ret 0 ⟨interrupted, reqs,
                ⟨out ++ framesOf records ++ [if ty = 79 then 0 else 32, 0, 0, 0, 0], []⟩,
                file1⟩) := by
  refine ⟨?_, ?_, ?_⟩
  · obtain ⟨⟨cs, fp⟩, hr⟩ := serve_all_terminates e fuel client_sock file hf hpos
    rw [process_request_all, hr]
    exact ⟨_, rfl⟩
  · intro hstop
    by_cases hshort : stop.length < 5
    · have h := send_message_short e ⟨stop, pos + (fileOf records).length, false⟩
        (out ++ framesOf records) hshort
      rw [process_request_all, serve_all_stop e records hvalid stop out pos fuel hfuel _ _ h]
      exact ⟨_, rfl⟩
    · rcases hstop with hstop | ⟨hb, hbad⟩
      · exact absurd hstop hshort
      · have h := send_message_malformed e ⟨stop, pos + (fileOf records).length, false⟩
          (out ++ framesOf records) rfl hb (by simp only; omega) hbad
        rw [process_request_all, serve_all_stop e records hvalid stop out pos fuel hfuel _ _ h]
        exact ⟨_, rfl⟩
  · intro ty body hty hstop
    subst hstop
    have h := send_message_zero_length e ty body (pos + (fileOf records).length)
      (out ++ framesOf records) hty
    rw [process_request_all, serve_all_stop e records hvalid _ out pos fuel hfuel _ _ h]
    exact ⟨_, rfl⟩

theorem fetch_all_semantics_witness :
    ∃ file1, process_request envX 3 ⟨false, some 127 :: [], ⟨[], []⟩,
        some ⟨fileOf [(0, [104, 105]), (1, [98, 121, 101])] ++ [], 0, false⟩⟩
      = .ret 0 ⟨false, [],
          ⟨[] ++ framesOf [(0, [104, 105]), (1, [98, 121, 101])] ++ endFrame, []⟩, file1⟩ :=
  (fetch_all_semantics envX false [] ⟨[], []⟩ none 3 (fun _ h => by cases h) (by decide)
    [(0, [104, 105]), (1, [98, 121, 101])] (by decide) [] [] 0 (by decide)).2.1
    (Or.inl (by decide))

/-- C8, counterexample to the claim as stated: for the job file that holds a
valid 'O' record of declared length 0 followed by the record O:"A", the
request 127 makes the server write the five bytes 00 00 00 00 00 (an Out
frame of length 0) and nothing else: no End frame is written, and the
record O:"A" is not served. -/
theorem fetch_all_no_end_frame_counterexample :
    process_request envX 9 ⟨false, [some 127], ⟨[], []⟩, some (fopen srcZeroA)⟩
        = .ret 0 ⟨false, [], ⟨[0, 0, 0, 0, 0], []⟩, some ⟨[79, 1, 0, 0, 0, 65], 5, false⟩⟩
      ∧ [0, 0, 0, 0, 0] ≠ framesOf [(0, [65])] ++ endFrame
      ∧ [0, 0, 0, 0, 0] ≠ framesOf [] ++ endFrame := by
  decide

/-! ## Lemmas on the client -/

theorem sock_read_cons (seg : List Nat) (more : List (List Nat)) (n : Nat) (hs : seg ≠ []) :
    sock_read (seg :: more) n
      = (seg.take n, if n < seg.length then seg.drop n :: more else more) := by
  cases seg with
  | nil => exact absurd rfl hs
  | cons x xs => rfl

theorem sock_read_segment (a b : List Nat) (more : List (List Nat)) (ha : a ≠ []) :
    sock_read ((a ++ b) :: more) a.length = (a, unread b more) := by
  rw [sock_read_cons _ _ _ (by simp [ha]), List.take_left' rfl, List.drop_left' rfl]
  refine Prod.ext rfl ?_
  simp only [unread, List.length_append]
  by_cases hb : b = []
  · subst hb; simp
  · have hl : 0 < b.length := List.length_pos.mpr hb
    rw [if_pos (by omega), if_neg hb]

theorem sock_read_unread (a b : List Nat) (more : List (List Nat)) (ha : a ≠ []) :
    sock_read (unread (a ++ b) more) a.length = (a, unread b more) := by
  have : a ++ b ≠ [] := by simp [ha]
  rw [unread, if_neg this]
  exact sock_read_segment a b more ha

theorem pending_unread (b : List Nat) (more : List (List Nat)) :
    pending (unread b more) = b ++ pending more := by
  unfold unread
  by_cases h : b = []
  · simp [h]
  · simp [h, pending]

theorem intOfBytes_beBytes (e : Env) (x : Nat) (hx : x < 4294967296) :
    ntohl e (intOfBytes e (beBytes x)) = x := by
  have h : intOfBytes e (beBytes x) = htonl e x := by
    unfold intOfBytes htonl bswap32
    cases e.littleEndian
    · simp only [Bool.false_eq_true, if_false, ofBeBytes, beBytes, List.getD_cons_zero,
        List.getD_cons_succ]
      omega
    · simp
  rw [h, ntohl_htonl e x hx]

theorem recv_text_loop_full (body rest : List Nat) (more : List (List Nat)) (fuel : Nat) :
    recv_text_loop body.length (fuel + 1) (unread (body ++ rest) more) []
      = some (body, unread rest more) := by
  by_cases hb : body = []
  · subst hb
    simp [recv_text_loop]
  · have hl : 0 < body.length := List.length_pos.mpr hb
    simp only [recv_text_loop, List.length_nil, hl, if_true, Nat.sub_zero,
      sock_read_unread body rest more hb, List.nil_append]
    cases fuel <;> simp [recv_text_loop]

theorem receive_reply_frame (e : Env) (info L : Nat) (body rest : List Nat)
    (more : List (List Nat)) (fuel : Nat) (hL : L < 2147483647)
    (hbody : body.length = if L = 0 then 0 else L + 1) :
    receive_reply e (fuel + 1) ((info :: (beBytes L ++ (body ++ rest))) :: more)
      = .message { job_info := info, text_length := L, job_text := body } (unread rest more) := by
  have h1 := sock_read_segment [info] (beBytes L ++ (body ++ rest)) more (by simp)
  have h2 := sock_read_unread (beBytes L) (body ++ rest) more (by simp [beBytes])
  simp only [List.singleton_append, List.length_singleton] at h1
  rw [beBytes_length] at h2
  have h3 := recv_text_loop_full body rest more fuel
  rw [hbody] at h3
  simp only [receive_reply, h1, h2, List.length_singleton, ne_eq, not_true_eq_false, if_false,
    List.headD_cons, beBytes_length, intOfBytes_beBytes e L (by omega),
    show ¬ (L ≥ 2147483647) by omega, h3]

theorem validate_checksum_cstring (e : Env) (info L : Nat) (t rest : List Nat) (hL : L ≠ 0)
    (hn : NulFree t) :
    validate_checksum e { job_info := info, text_length := L, job_text := t ++ (0 :: rest) }
      = if t.sum % 32 = info % 32 then 0 else -1 := by
  have h31 : info &&& 31 = info % 32 := Nat.and_pow_two_sub_one_eq_mod info 5
  simp only [validate_checksum, hL, if_false, strlen_append_nul t rest hn, List.take_left' rfl,
    checksum_fold_mod e t 0, Nat.zero_add, h31]

theorem send_to_pipe_job (e : Env) (info : Nat) (t po : List Nat) :
    send_to_pipe e ⟨po, []⟩ ONE_JOB_REQUEST
        (some { job_info := info, text_length := t.length, job_text := t ++ [0] })
      = (0, ⟨po ++ pipeMsg e t, []⟩) := by
  have hlen : (intBytes e t.length).length = 4 := by
    unfold intBytes; split <;> rfl
  have hsize : (msgBytes e (⟨ONE_JOB_REQUEST, t.length, t ++ [0]⟩ : JobMessage)).length
      = (4 + (t.length + 1)) + 1 := by
    simp only [msgBytes, List.length_cons, List.length_append, hlen, List.length_nil]
  have hb := peek_block e (msgBytes e (⟨ONE_JOB_REQUEST, t.length, t ++ [0]⟩ : JobMessage))
  rw [hsize] at hb
  simp only [send_to_pipe]
  rw [show 1 + 4 + (t.length + 1) = (4 + (t.length + 1)) + 1 by omega, write_loop_full, hb]
  rfl

theorem send_to_pipe_stop (e : Env) (po : List Nat) (request : Nat) :
    send_to_pipe e ⟨po, []⟩ request none = (1, ⟨po ++ [request], []⟩) := by
  simp [send_to_pipe, Chan.write]

theorem send_request_full (so : List Nat) (request : Nat) :
    send_request ⟨so, []⟩ request = (0, ⟨so ++ [request], []⟩) := by
  simp [send_request, Chan.write]

theorem send_fetched_nulFree (e : Env) (c : Nat) (t out : List Nat)
    (hc : c = TYPE_O ∨ c = TYPE_E) (hn : NulFree t) (hlen : t.length ≤ 54378) :
    send_fetched e (create_msg e c t.length (t ++ [0])) ⟨out, []⟩
      = (if t.length = 0 then 1 else 0, ⟨out ++ frame c t, []⟩) := by
  have hs := send_fetched_job e c t out hc hlen
  have ht := create_msg_text_take e c t hc
  rw [strlen_append_nul t [] hn] at ht
  rw [checksum_cstring e t [] hn, ht] at hs
  rw [hs]
  by_cases h0 : t.length = 0
  · simp [h0, frame]
  · have : t.length > 0 := by omega
    simp [h0, this, frame]

theorem frame_body_length (t : List Nat) :
    (if t.length > 0 then t ++ [0] else []).length = if t.length = 0 then 0 else t.length + 1 := by
  by_cases h0 : t.length = 0
  · simp [h0]
  · have : t.length > 0 := by omega
    simp [h0, this]

theorem receive_reply_job (e : Env) (c : Nat) (t rest : List Nat) (more : List (List Nat))
    (fuel : Nat) (hlen : t.length ≤ 54378) :
    receive_reply e (fuel + 1) ((frame c t ++ rest) :: more)
      = .message { job_info := c * 32 + t.sum % 32, text_length := t.length,
                   job_text := if t.length > 0 then t ++ [0] else [] } (unread rest more) := by
  have h := receive_reply_frame e (c * 32 + t.sum % 32) t.length
    (if t.length > 0 then t ++ [0] else []) rest more fuel (by omega) (frame_body_length t)
  rw [← h]
  simp [frame]

theorem receive_reply_end (e : Env) (rest : List Nat) (more : List (List Nat)) (fuel : Nat) :
    receive_reply e (fuel + 1) ((endFrame ++ rest) :: more)
      = .message { job_info := 224, text_length := 0, job_text := [] } (unread rest more) := by
  have h := receive_reply_frame e 224 0 [] rest more fuel (by omega) rfl
  rw [← h]
  rfl

theorem validate_checksum_job (e : Env) (c : Nat) (t : List Nat) (hn : NulFree t) :
    validate_checksum e { job_info := c * 32 + t.sum % 32, text_length := t.length,
                          job_text := if t.length > 0 then t ++ [0] else [] } = 0 := by
  by_cases h0 : t.length = 0
  · simp [validate_checksum, h0]
  · have hpos : t.length > 0 := by omega
    rw [if_pos hpos, validate_checksum_cstring e _ _ t [] h0 hn]
    have : t.sum % 32 = (c * 32 + t.sum % 32) % 32 := by omega
    rw [if_pos this]

/-! ## Reads that deliver the stream in segments -/

theorem sum_set (t : List Nat) (i b : Nat) (hi : i < t.length) :
    (t.set i b).sum + t.getD i 0 = t.sum + b := by
  induction t generalizing i with
  | nil => simp at hi
  | cons a t ih =>
    cases i with
    | zero => simp [List.set]; omega
    | succ i =>
      have := ih i (by simpa using hi)
      simp only [List.set_cons_succ, List.sum_cons, List.getD_cons_succ]
      omega

theorem nulFree_set (t : List Nat) (i b : Nat) (hn : NulFree t) (hb1 : 1 ≤ b) (hb2 : b ≤ 255) :
    NulFree (t.set i b) := by
  intro x hx
  rcases List.mem_or_eq_of_mem_set hx with h | h
  · exact hn x h
  · subst h; exact ⟨hb1, hb2⟩

theorem frame_set (c : Nat) (t : List Nat) (i b : Nat) (hi : i < t.length) :
    (frame c t).set (5 + i) b
      = (c * 32 + t.sum % 32) :: (beBytes t.length ++ ((t.set i b ++ [0]) ++ [])) := by
  have hpos : t.length > 0 := by omega
  rw [Nat.add_comm 5 i]
  simp only [frame, hpos, if_true, beBytes, List.cons_append, List.nil_append, List.set_cons_succ,
    List.append_nil, List.set_append, hi]

theorem validate_checksum_set (e : Env) (c : Nat) (t : List Nat) (i b : Nat)
    (hn : NulFree t) (hi : i < t.length) (hb1 : 1 ≤ b) (hb2 : b ≤ 255) :
    validate_checksum e { job_info := c * 32 + t.sum % 32, text_length := t.length,
                          job_text := t.set i b ++ [0] }
      = if t.getD i 0 % 32 = b % 32 then 0 else -1 := by
  have hs := sum_set t i b hi
  rw [validate_checksum_cstring e _ _ (t.set i b) [] (by omega)
    (nulFree_set t i b hn hb1 hb2)]
  by_cases h : t.getD i 0 % 32 = b % 32
  · rw [if_pos h, if_pos (by omega)]
  · rw [if_neg h, if_neg (by omega)]

/-- C10: take the frame the server sends for a category Out or Err and a
non-empty NUL-free text and replace one text byte by a non-NUL byte.  The client receives the message with the changed text, and
`validate_checksum` reports a mismatch (-1) for it if and only if the old and
the new byte differ modulo 32; when it does, `process_reply` returns -1 and
leaves both pipes (and the socket's write side) as they were.  A message of
text length 0 validates whatever its info byte and text. -/
theorem checksum_mismatch_detection (e : Env) (c : Nat) (t : List Nat) (i b : Nat)
    (rest : List Nat) (more : List (List Nat)) (fuel : Nat) (interrupted : Bool)
    (stdin : List Stdin) (so po pe : Chan)
    (hc : c = TYPE_O ∨ c = TYPE_E) (hn : NulFree t) (hlen : t.length ≤ 54378)
    (hi : i < t.length) (hb1 : 1 ≤ b) (hb2 : b ≤ 255) :
    receive_reply e (fuel + 1)
        ((((send_fetched e (create_msg e c t.length (t ++ [0])) ⟨[], []⟩).2.out.set (5 + i) b)
            ++ rest) :: more)
      = .message { job_info := c * 32 + t.sum % 32, text_length := t.length,
                   job_text := t.set i b ++ [0] } (unread rest more)
    ∧ (validate_checksum e { job_info := c * 32 + t.sum % 32, text_length := t.length,
                             job_text := t.set i b ++ [0] } = -1
        ↔ t.getD i 0 % 32 ≠ b % 32)
    ∧ (validate_checksum e { job_info := c * 32 + t.sum % 32, text_length := t.length,
                             job_text := t.set i b ++ [0] } = 0
        ↔ t.getD i 0 % 32 = b % 32)
    ∧ (t.getD i 0 % 32 ≠ b % 32 →
        process_reply e (fuel + 1)
            ⟨interrupted, stdin,
              (((send_fetched e (create_msg e c t.length (t ++ [0])) ⟨[], []⟩).2.out.set
                  (5 + i) b) ++ rest) :: more, so, po, pe⟩
          = .ret (-1) ⟨interrupted, stdin, unread rest more, so, po, pe⟩)
    ∧ ∀ info text, validate_checksum e { job_info := info, text_length := 0, job_text := text }
        = 0 := by
  have hv := validate_checksum_set e c t i b hn hi hb1 hb2
  have hr : receive_reply e (fuel + 1)
        ((((send_fetched e (create_msg e c t.length (t ++ [0])) ⟨[], []⟩).2.out.set (5 + i) b)
            ++ rest) :: more)
      = .message { job_info := c * 32 + t.sum % 32, text_length := t.length,
                   job_text := t.set i b ++ [0] } (unread rest more) := by
    rw [send_fetched_nulFree e c t [] hc hn hlen]
    have h := receive_reply_frame e (c * 32 + t.sum % 32) t.length (t.set i b ++ [0]) rest more
      fuel (by omega) (by
        have : t.length ≠ 0 := by omega
        simp [this])
    rw [← h]
    simp only [List.nil_append, frame_set c t i b hi, List.append_nil, List.cons_append,
      List.append_assoc]
  refine ⟨hr, ?_, ?_, ?_, ?_⟩
  · rw [hv]
    by_cases h : t.getD i 0 % 32 = b % 32 <;> simp [h]
  · rw [hv]
    by_cases h : t.getD i 0 % 32 = b % 32 <;> simp [h]
  · intro hmis
    simp only [process_reply, hr, hv, if_neg hmis]
    simp
  · intro info text
    simp [validate_checksum]

theorem checksum_mismatch_detection_witness :
    process_reply envX (0 + 1)
        ⟨false, [],
          (((send_fetched envX (create_msg envX 0 [104, 105].length ([104, 105] ++ [0]))
              ⟨[], []⟩).2.out.set (5 + 1) 106) ++ []) :: [], ⟨[], []⟩, ⟨[], []⟩, ⟨[], []⟩⟩
      = .ret (-1) ⟨false, [], unread [] [], ⟨[], []⟩, ⟨[], []⟩, ⟨[], []⟩⟩ :=
  (checksum_mismatch_detection envX 0 [104, 105] 1 106 [] [] 0 false [] ⟨[], []⟩ ⟨[], []⟩
    ⟨[], []⟩ (Or.inl rfl) (by decide) (by decide) (by decide) (by decide)
    (by decide)).2.2.2.1 (by decide)

/-! ## Routing of the jobs to the two pipes -/

theorem frame_ne_nil (c : Nat) (t : List Nat) : frame c t ≠ [] := by
  simp [frame]

theorem process_reply_job (e : Env) (c : Nat) (t rest : List Nat) (more : List (List Nat))
    (fuel : Nat) (interrupted : Bool) (stdin : List Stdin) (so : Chan) (po pe : List Nat)
    (hv : ValidJob (c, t)) :
    process_reply e (fuel + 1)
        ⟨interrupted, stdin, unread (frame c t ++ rest) more, so, ⟨po, []⟩, ⟨pe, []⟩⟩
      = .ret 1 ⟨interrupted, stdin, unread rest more, so,
          ⟨po ++ (if c = TYPE_O then pipeMsg e t else []), []⟩,
          ⟨pe ++ (if c = TYPE_E then pipeMsg e t else []), []⟩⟩ := by
  obtain ⟨hc, hn, hne, hlen⟩ := hv
  simp only at hc hn hne hlen
  have hpos : t.length > 0 := List.length_pos.mpr hne
  have hu : unread (frame c t ++ rest) more = (frame c t ++ rest) :: more := by
    rw [unread, if_neg (by simp [frame_ne_nil])]
  have hr := receive_reply_job e c t rest more fuel hlen
  have hval := validate_checksum_job e c t hn
  rw [if_pos hpos] at hr hval
  have hcat : (c * 32 + t.sum % 32) / 32 = c := by omega
  simp only [process_reply, hu, hr, hval, ne_eq, not_true_eq_false, if_false, hcat]
  rcases hc with hc | hc
  · subst hc
    simp [send_to_pipe_job, TYPE_O, TYPE_E]
  · subst hc
    simp [send_to_pipe_job, TYPE_O, TYPE_E]

theorem process_reply_end (e : Env) (rest : List Nat) (more : List (List Nat))
    (fuel : Nat) (interrupted : Bool) (stdin : List Stdin) (so po pe : List Nat) :
    process_reply e (fuel + 1)
        ⟨interrupted, stdin, unread (endFrame ++ rest) more, ⟨so, []⟩, ⟨po, []⟩, ⟨pe, []⟩⟩
      = .ret 0 ⟨interrupted, stdin, unread rest more, ⟨so ++ [128], []⟩,
          ⟨po ++ [128], []⟩, ⟨pe ++ [128], []⟩⟩ := by
  have hu : unread (endFrame ++ rest) more = (endFrame ++ rest) :: more := by
    rw [unread, if_neg (by simp [endFrame])]
  have hr := receive_reply_end e rest more fuel
  simp only [process_reply, hu, hr]
  simp [validate_checksum, send_to_pipe_stop, send_request_full, TYPE_O, TYPE_E, TYPE_Q,
    STOP_REQUEST]

theorem receive_all_jobs (e : Env) (jobs : List (Nat × List Nat))
    (hvalid : ∀ r ∈ jobs, ValidJob r) (rest : List Nat) (more : List (List Nat))
    (fuel k : Nat) (interrupted : Bool) (stdin : List Stdin) (so po pe : List Nat) :
    receive_all e (fuel + 1) (jobs.length + 1 + k)
        ⟨interrupted, stdin, unread (framesOf jobs ++ (endFrame ++ rest)) more,
          ⟨so, []⟩, ⟨po, []⟩, ⟨pe, []⟩⟩
      = .ret 0 ⟨interrupted, stdin, unread rest more, ⟨so ++ [128], []⟩,
          ⟨po ++ pipeMsgs e TYPE_O jobs ++ [128], []⟩,
          ⟨pe ++ pipeMsgs e TYPE_E jobs ++ [128], []⟩⟩ := by
  induction jobs generalizing po pe with
  | nil =>
    simp only [framesOf, List.nil_append, List.length_nil, Nat.zero_add, pipeMsgs,
      List.append_nil]
    rw [Nat.add_comm 1 k]
    simp only [receive_all, process_reply_end]
    simp
  | cons r rs ih =>
    have hr : ValidJob (r.1, r.2) := hvalid r (by simp)
    have hrs : ∀ x ∈ rs, ValidJob x := fun x hx => hvalid x (by simp [hx])
    have hk : (r :: rs).length + 1 + k = (rs.length + 1 + k) + 1 := by
      simp only [List.length_cons]; omega
    rw [hk]
    simp only [receive_all, framesOf, List.append_assoc, process_reply_job e r.1 r.2 _ more fuel
      interrupted stdin ⟨so, []⟩ po pe hr]
    simp only [show ¬ ((1 : Int) ≤ 0) by decide, if_false, ih hrs, pipeMsgs, List.append_assoc]

/-- C9: reads delivered in full and writes accepted in full; the user chooses
option 3 (fetch all) and the server's answer is the frames of Out and Err
jobs with non-empty text and valid checksums followed by one End frame.
Then `command_menu` returns 0; the out pipe has received the messages of the
Out jobs in arrival order (each tagged 1) and then the single stop byte 128,
the err pipe those of the Err jobs and then 128, and the server socket the
request 127 and, after the End frame, the stop request 128.  For the job file
O:"hi", E:"bye" served by `process_request`, the out pipe gets "hi" then
stop and the err pipe "bye" then stop. -/
theorem client_routing (e : Env) (jobs : List (Nat × List Nat))
    (hvalid : ∀ r ∈ jobs, ValidJob r) (rest : List Nat) (more : List (List Nat))
    (fuel k : Nat) (stdin : List Stdin) (so po pe : List Nat) (hfuel : jobs.length < fuel) :
    command_menu e fuel (k + 1)
        ⟨false, Stdin.line 3 :: stdin, (framesOf jobs ++ (endFrame ++ rest)) :: more,
          ⟨so, []⟩, ⟨po, []⟩, ⟨pe, []⟩⟩
      = .ret 0 ⟨false, stdin, unread rest more, ⟨so ++ [127, 128], []⟩,
          ⟨po ++ pipeMsgs e TYPE_O jobs ++ [128], []⟩,
          ⟨pe ++ pipeMsgs e TYPE_E jobs ++ [128], []⟩⟩
    ∧ process_request envX 3 ⟨false, [some 127], ⟨[], []⟩, some (fopen srcHiBye)⟩
        = .ret 0 ⟨false, [],
            ⟨[17, 0, 0, 0, 2, 104, 105, 0, 32, 0, 0, 0, 3, 98, 121, 101, 0, 224, 0, 0, 0, 0], []⟩,
            some ⟨[], 15, true⟩⟩
    ∧ command_menu envX 3 1
        ⟨false, [Stdin.line 3],
          [[17, 0, 0, 0, 2, 104, 105, 0, 32, 0, 0, 0, 3, 98, 121, 101, 0, 224, 0, 0, 0, 0]],
          ⟨[], []⟩, ⟨[], []⟩, ⟨[], []⟩⟩
        = .ret 0 ⟨false, [], [], ⟨[127, 128], []⟩,
            ⟨pipeMsg envX [104, 105] ++ [128], []⟩,
            ⟨pipeMsg envX [98, 121, 101] ++ [128], []⟩⟩ := by
  refine ⟨?_, by decide, by decide⟩
  obtain ⟨j, hj⟩ : ∃ j, fuel = jobs.length + 1 + j := ⟨fuel - jobs.length - 1, by omega⟩
  have hu : (framesOf jobs ++ (endFrame ++ rest)) :: more
      = unread (framesOf jobs ++ (endFrame ++ rest)) more := by
    rw [unread, if_neg (by simp [endFrame])]
  have hra := receive_all_jobs e jobs hvalid rest more (jobs.length + j) j false stdin
    (so ++ [127]) po pe
  rw [show jobs.length + j + 1 = fuel by omega, ← hj] at hra
  simp only [command_menu, Bool.false_or, reduceCtorEq, decide_False, Bool.false_eq_true,
    if_false, Bool.not_false, Bool.true_and, send_request_full, ALL_JOBS_REQUEST]
  simp only [show ¬ ((3 : Int) < 0) by decide, show ¬ ((3 : Int) > 4) by decide,
    show ¬ ((3 : Int) = 1) by decide, show ¬ ((3 : Int) = 2) by decide, decide_False,
    Bool.or_self, Bool.false_eq_true, if_false, if_true, ne_eq, not_true_eq_false, hu, hra,
    List.append_assoc, List.singleton_append]

theorem client_routing_witness :
    command_menu envX 3 (0 + 1)
        ⟨false, Stdin.line 3 :: [],
          (framesOf [(0, [104, 105]), (1, [98, 121, 101])] ++ (endFrame ++ [])) :: [],
          ⟨[], []⟩, ⟨[], []⟩, ⟨[], []⟩⟩
      = .ret 0 ⟨false, [], unread [] [], ⟨[] ++ [127, 128], []⟩,
          ⟨[] ++ pipeMsgs envX TYPE_O [(0, [104, 105]), (1, [98, 121, 101])] ++ [128], []⟩,
          ⟨[] ++ pipeMsgs envX TYPE_E [(0, [104, 105]), (1, [98, 121, 101])] ++ [128], []⟩⟩ :=
  (client_routing envX [(0, [104, 105]), (1, [98, 121, 101])] (by decide) [] [] 3 0 []
    [] [] [] (by decide)).1

/-! ## The checksum of the second record of the scenario -/

/-- C11 (as amended): in the two-record scenario the checksum the server
computes for the text "bye" is (98+121+101) mod 32 = 320 mod 32 = 0, so the
Err frame built by `create_msg` for "bye" carries checksum 0 in the low 5 bits
of its info byte, which is 32 + 0 = 32. -/
theorem checksum_bye_is_zero (e : Env) :
    checksum e [98, 121, 101, 0] = 0
      ∧ (98 + 121 + 101) % 32 = 0
      ∧ (create_msg e TYPE_E 3 [98, 121, 101, 0]).job_info = 32
      ∧ (create_msg e TYPE_E 3 [98, 121, 101, 0]).job_info % 32 = 0
      ∧ (create_msg e TYPE_E 3 [98, 121, 101, 0]).job_info / 32 = TYPE_E := by
  have hcs : checksum e [98, 121, 101, 0] = 0 := by
    have := checksum_cstring e [98, 121, 101] [] (by decide)
    simpa using this
  have hinfo : (create_msg e TYPE_E 3 [98, 121, 101, 0]).job_info = 32 := by
    rw [create_msg_job e TYPE_E 3 _ (Or.inr rfl), hcs]
    rfl
  refine ⟨hcs, by decide, hinfo, ?_, ?_⟩
  · rw [hinfo]
  · rw [hinfo]; rfl

/-- C11, counterexample to the claim as stated: the checksum the server
computes for "bye" is not 16 and the info byte of its Err frame is not 48;
the second message `fetch_job` returns for the job file O:"hi", E:"bye" has
the info byte 32. -/
theorem checksum_bye_counterexample :
    checksum envX [98, 121, 101, 0] ≠ 16
      ∧ (create_msg envX TYPE_E 3 [98, 121, 101, 0]).job_info % 32 ≠ 16
      ∧ (create_msg envX TYPE_E 3 [98, 121, 101, 0]).job_info ≠ 48
      ∧ (fetch_job envX (after_calls envX 1 (some (fopen srcHiBye)))).1.job_info = 32 := by
  decide

/-! ## The menu of the client -/

theorem send_request_any (so : Chan) (request : Nat) :
    send_request so request = (0, ⟨so.out ++ [request], so.caps.tail⟩) := by
  obtain ⟨out, caps⟩ := so
  cases caps with
  | nil => simp [send_request, Chan.write]
  | cons c cs => simp [send_request, Chan.write]

theorem send_to_pipe_stop_any (e : Env) (po : Chan) (request : Nat) :
    send_to_pipe e po request none = (1, ⟨po.out ++ [request], po.caps.tail⟩) := by
  obtain ⟨out, caps⟩ := po
  cases caps with
  | nil => simp [send_to_pipe, Chan.write]
  | cons c cs => simp [send_to_pipe, Chan.write]

/-- C12, the code at the failing input: the user chooses option 2 and enters
the count 200 (the server has closed the stream).  The count is not rejected:
the request byte 72 = 200 & 127 is written to the socket and a receive cycle
is made, which fails.  For the count 127 the request byte written is 127, the
request for all jobs. -/
theorem fetch_several_accepts_count_above_126 (e : Env) :
    command_menu e 1 1 ⟨false, [Stdin.line 2, Stdin.line 200], [], ⟨[], []⟩, ⟨[], []⟩, ⟨[], []⟩⟩
        = .ret (-1) ⟨false, [], [], ⟨[72], []⟩, ⟨[], []⟩, ⟨[], []⟩⟩
      ∧ command_menu e 1 1
          ⟨false, [Stdin.line 2, Stdin.line 127], [], ⟨[], []⟩, ⟨[], []⟩, ⟨[], []⟩⟩
        = .ret (-1) ⟨false, [], [], ⟨[ALL_JOBS_REQUEST], []⟩, ⟨[], []⟩, ⟨[], []⟩⟩ := by
  constructor <;> rfl

/-- C13: when the user asks for 0 jobs (option 2, count 0) and then chooses
option 4, `command_menu` returns 0 and the socket has received the request
byte 0 followed by the stop request 128, both pipes the stop byte 128, while
the socket's input is left as it is, whatever it holds: no receive cycle is
made for the count 0 (for the count 1 on a closed stream the receive cycle
that is made returns -1).
Whatever follows on standard input, the run after the count 0 is the run of
the next menu round with the byte 0 written.  On the server,
`process_request` on the request byte 0 with no interrupt pending writes
nothing to the client, leaves the job file where it is and returns 0. -/
theorem request_zero (e : Env) (fuel k : Nat) (stdin : List Stdin) (sock_in : List (List Nat))
    (so po pe : Chan) (reqs : List (Option Nat)) (sock : Chan) (file : Option FILE) :
    command_menu e fuel (k + 2)
        ⟨false, Stdin.line 2 :: Stdin.line 0 :: Stdin.line 4 :: stdin, sock_in, so, po, pe⟩
      = .ret 0 ⟨false, stdin, sock_in, ⟨so.out ++ [0, STOP_REQUEST], so.caps.tail.tail⟩,
          ⟨po.out ++ [STOP_REQUEST], po.caps.tail⟩, ⟨pe.out ++ [STOP_REQUEST], pe.caps.tail⟩⟩
    ∧ command_menu e fuel (k + 1)
        ⟨false, Stdin.line 2 :: Stdin.line 1 :: stdin, [], so, po, pe⟩
      = .ret (-1) ⟨false, stdin, [], ⟨so.out ++ [1], so.caps.tail⟩, po, pe⟩
    ∧ receive_jobs e fuel 0 ⟨false, stdin, sock_in, ⟨so.out ++ [0], so.caps.tail⟩, po, pe⟩
      = (none, ⟨false, stdin, sock_in, ⟨so.out ++ [0], so.caps.tail⟩, po, pe⟩)
    ∧ command_menu e fuel (k + 1)
        ⟨false, Stdin.line 2 :: Stdin.line 0 :: stdin, sock_in, so, po, pe⟩
      = command_menu e fuel k ⟨false, stdin, sock_in, ⟨so.out ++ [0], so.caps.tail⟩, po, pe⟩
    ∧ process_request e fuel ⟨false, some 0 :: reqs, sock, file⟩
      = .ret 0 ⟨false, reqs, sock, file⟩ := by
  have hstep : ∀ (j : Nat) (rest : List Stdin),
      command_menu e fuel (j + 1)
          ⟨false, Stdin.line 2 :: Stdin.line 0 :: rest, sock_in, so, po, pe⟩
        = command_menu e fuel j ⟨false, rest, sock_in, ⟨so.out ++ [0], so.caps.tail⟩, po, pe⟩ := by
    intro j rest
    simp only [command_menu, Bool.false_or, reduceCtorEq, decide_False, Bool.false_eq_true,
      if_false, Bool.not_false, Bool.true_and, send_request_any]
    simp only [show ¬ ((2 : Int) < 0) by decide, show ¬ ((2 : Int) > 4) by decide,
      show ¬ ((2 : Int) = 1) by decide, show ¬ ((0 : Int) < 0) by decide,
      show ¬ ((2 : Int) > 126) by decide, decide_False, Bool.or_self, Bool.false_eq_true,
      if_false, if_true, ne_eq, not_true_eq_false]
    rfl
  refine ⟨?_, ?_, rfl, hstep k stdin, rfl⟩
  · rw [hstep (k + 1) (Stdin.line 4 :: stdin)]
    simp only [command_menu, Bool.false_or, reduceCtorEq, decide_False, Bool.false_eq_true,
      if_false, Bool.not_false, Bool.true_and, send_request_any, send_to_pipe_stop_any,
      STOP_REQUEST]
    simp only [show ¬ ((4 : Int) < 0) by decide, show ¬ ((4 : Int) > 4) by decide,
      show ¬ ((4 : Int) = 1) by decide, show ¬ ((4 : Int) = 2) by decide,
      show ¬ ((4 : Int) = 3) by decide, decide_False, Bool.or_self, Bool.false_eq_true,
      if_false, if_true, ne_eq, not_true_eq_false]
    simp
  · simp only [command_menu, Bool.false_or, reduceCtorEq, decide_False, Bool.false_eq_true,
      if_false, Bool.not_false, Bool.true_and, send_request_any]
    simp only [show ¬ ((2 : Int) < 0) by decide, show ¬ ((2 : Int) > 4) by decide,
      show ¬ ((2 : Int) = 1) by decide, show ¬ ((1 : Int) < 0) by decide,
      show ¬ ((2 : Int) > 126) by decide, decide_False, Bool.or_self, Bool.false_eq_true,
      if_false, if_true, ne_eq, not_true_eq_false]
    rfl

/-- C14, the code on the three stop paths (writes accepted in full).  After
an interrupt at the prompt for the job count of option 2, `command_menu`
writes the stop request 128 to the server socket and returns 0, and writes
nothing to either pipe.  On option 4 and after an interrupt at the menu
prompt it writes 128 to the socket and to both pipes and returns 0. -/
theorem stop_paths (e : Env) (fuel k : Nat) (stdin : List Stdin) (sock_in : List (List Nat))
    (so po pe : List Nat) :
    command_menu e fuel (k + 1)
        ⟨false, Stdin.line 2 :: Stdin.interrupt :: stdin, sock_in, ⟨so, []⟩, ⟨po, []⟩, ⟨pe, []⟩⟩
      = .ret 0 ⟨true, stdin, sock_in, ⟨so ++ [128], []⟩, ⟨po, []⟩, ⟨pe, []⟩⟩
    ∧ command_menu e fuel (k + 1)
        ⟨false, Stdin.line 4 :: stdin, sock_in, ⟨so, []⟩, ⟨po, []⟩, ⟨pe, []⟩⟩
      = .ret 0 ⟨false, stdin, sock_in, ⟨so ++ [128], []⟩, ⟨po ++ [128], []⟩, ⟨pe ++ [128], []⟩⟩
    ∧ command_menu e fuel (k + 1)
        ⟨false, Stdin.interrupt :: stdin, sock_in, ⟨so, []⟩, ⟨po, []⟩, ⟨pe, []⟩⟩
      = .ret 0 ⟨true, stdin, sock_in, ⟨so ++ [128], []⟩, ⟨po ++ [128], []⟩, ⟨pe ++ [128], []⟩⟩
    := by
  refine ⟨?_, ?_, ?_⟩
  · simp only [command_menu, Bool.false_or, reduceCtorEq, decide_False, decide_True,
      Bool.false_eq_true, if_false, Bool.not_false, Bool.true_and, send_request_full,
      STOP_REQUEST]
    simp only [show ¬ ((2 : Int) < 0) by decide, show ¬ ((2 : Int) > 4) by decide,
      show ¬ ((2 : Int) = 1) by decide, decide_False, Bool.or_self, Bool.false_eq_true,
      if_false, if_true, ne_eq, not_true_eq_false]
  · simp only [command_menu, Bool.false_or, reduceCtorEq, decide_False, Bool.false_eq_true,
      if_false, Bool.not_false, Bool.true_and, send_request_full, send_to_pipe_stop,
      STOP_REQUEST]
    simp only [show ¬ ((4 : Int) < 0) by decide, show ¬ ((4 : Int) > 4) by decide,
      show ¬ ((4 : Int) = 1) by decide, show ¬ ((4 : Int) = 2) by decide,
      show ¬ ((4 : Int) = 3) by decide, decide_False, Bool.or_self, Bool.false_eq_true,
      if_false, if_true, ne_eq, not_true_eq_false]
  · simp only [command_menu, Bool.false_or, decide_True, Bool.not_true, Bool.false_and,
      Bool.false_eq_true, if_false, if_true, send_request_full, send_to_pipe_stop,
      STOP_REQUEST]
    simp only [show ¬ ((4 : Int) = 1) by decide, show ¬ ((4 : Int) = 2) by decide,
      show ¬ ((4 : Int) = 3) by decide, if_false, if_true, ne_eq, not_true_eq_false]
    simp

/-! ## Short writes -/

/-- C17, the code at the failing input: the frame of the job O:"hi" is the
eight bytes 17 0 0 0 2 104 105 0, and the first `write` accepts one byte.
`send_message` terminates with eight bytes accepted, but they are not the
frame: the second `write` starts at `msg + 1`, five bytes into the message,
so the bytes accepted are 17 104 105 0 and four bytes from beyond the
message.  The same happens in `send_to_pipe`, whose message 1, length,
104 105 0 arrives as 1 104 105 0 and four bytes from beyond the message. -/
theorem short_write_sends_wrong_bytes (e : Env) :
    (send_fetched e (create_msg e TYPE_O 2 [104, 105, 0]) ⟨[], []⟩).2.out
        = [17, 0, 0, 0, 2, 104, 105, 0]
      ∧ (send_fetched e (create_msg e TYPE_O 2 [104, 105, 0]) ⟨[], [0]⟩).2.out
          = [17, 104, 105, 0, e.junk 8 % 256, e.junk 9 % 256, e.junk 10 % 256,
              e.junk 11 % 256]
      ∧ (send_fetched e (create_msg e TYPE_O 2 [104, 105, 0]) ⟨[], [0]⟩).2.out
          ≠ [17, 0, 0, 0, 2, 104, 105, 0]
      ∧ (send_to_pipe e ⟨[], []⟩ ONE_JOB_REQUEST (some ⟨17, 2, [104, 105, 0]⟩)).2.out
          = pipeMsg e [104, 105]
      ∧ (send_to_pipe e ⟨[], [0]⟩ ONE_JOB_REQUEST (some ⟨17, 2, [104, 105, 0]⟩)).2.out
          = [1, 104, 105, 0, e.junk 8 % 256, e.junk 9 % 256, e.junk 10 % 256,
              e.junk 11 % 256]
      ∧ (send_to_pipe e ⟨[], [0]⟩ ONE_JOB_REQUEST (some ⟨17, 2, [104, 105, 0]⟩)).2.out
          ≠ pipeMsg e [104, 105] := by
  have hfull := send_fetched_nulFree e TYPE_O [104, 105] [] (Or.inl rfl) (by decide) (by decide)
  have hpipe := send_to_pipe_job e 17 [104, 105] []
  refine ⟨?_, ?_, ?_, ?_, send_to_pipe_hi_short e, ?_⟩
  · exact (congrArg (fun r => r.2.out) hfull).trans
      (show [] ++ frame TYPE_O [104, 105] = [17, 0, 0, 0, 2, 104, 105, 0] by decide)
  · rw [create_msg_hi]; exact send_fetched_hi_short e
  · rw [create_msg_hi, send_fetched_hi_short]
    simp
  · exact (congrArg (fun r => r.2.out) hpipe).trans (List.nil_append _)
  · rw [send_to_pipe_hi_short]
    obtain ⟨cs, le, junk⟩ := e
    cases le <;> simp [pipeMsg, intBytes, leBytes, beBytes]

/-! ## Reading the job text -/

theorem recv_text_loop_closed (text_size : Nat) (fuel : Nat) (buf : List Nat)
    (h : buf.length < text_size) : recv_text_loop text_size fuel [] buf = none := by
  induction fuel with
  | zero => simp [recv_text_loop, h]
  | succ fuel ih => simpa [recv_text_loop, h, sock_read] using ih

theorem recv_text_loop_part (text_size : Nat) (fuel : Nat) (part : List Nat)
    (h : part.length < text_size) : recv_text_loop text_size fuel (unread part []) [] = none := by
  by_cases hp : part = []
  · subst hp
    exact recv_text_loop_closed text_size fuel [] h
  · rw [unread, if_neg hp]
    cases fuel with
    | zero => simp [recv_text_loop]; omega
    | succ fuel =>
      have hpos : 0 < text_size := by omega
      simp only [recv_text_loop, List.length_nil, hpos, if_true, Nat.sub_zero,
        sock_read_cons part [] text_size hp, List.nil_append]
      rw [if_neg (by omega), List.take_of_length_le (by omega)]
      exact recv_text_loop_closed text_size fuel part h

theorem receive_reply_closed (e : Env) (fuel info L : Nat) (part : List Nat) (hL0 : L ≠ 0)
    (hL : L < 2147483647) (hpart : part.length < L + 1) :
    receive_reply e fuel [info :: (beBytes L ++ part)] = .timeout := by
  have h1 := sock_read_segment [info] (beBytes L ++ part) [] (by simp)
  have h2 := sock_read_unread (beBytes L) part [] (by simp [beBytes])
  simp only [List.singleton_append, List.length_singleton] at h1
  rw [beBytes_length] at h2
  simp only [receive_reply, h1, h2, List.length_singleton, ne_eq, not_true_eq_false, if_false,
    List.headD_cons, beBytes_length, intOfBytes_beBytes e L (by omega),
    show ¬ (L ≥ 2147483647) by omega, hL0, recv_text_loop_part (L + 1) fuel part hpart]

theorem recv_text_loop_pieces (text_size : Nat) (pieces : List (List Nat))
    (last rest : List Nat) (more : List (List Nat)) (buf : List Nat) (fuel : Nat)
    (hne : ∀ p ∈ pieces, p ≠ []) (hlast : last ≠ [])
    (hsize : buf.length + (pending pieces).length + last.length = text_size)
    (hfuel : pieces.length < fuel) :
    recv_text_loop text_size fuel (pieces ++ (last ++ rest) :: more) buf
      = some (buf ++ pending pieces ++ last, unread rest more) := by
  have hl : 0 < last.length := List.length_pos.mpr hlast
  induction pieces generalizing buf fuel with
  | nil =>
    obtain ⟨f, rfl⟩ : ∃ f, fuel = f + 1 := ⟨fuel - 1, by simp at hfuel; omega⟩
    simp only [pending, List.length_nil, Nat.add_zero] at hsize
    have hn : text_size - buf.length = last.length := by omega
    simp only [recv_text_loop, List.nil_append, show buf.length < text_size by omega, if_true,
      hn, sock_read_segment last rest more hlast, pending, List.append_nil]
    cases f <;> simp [recv_text_loop, hsize.symm]
  | cons p ps ih =>
    obtain ⟨f, rfl⟩ : ∃ f, fuel = f + 1 := ⟨fuel - 1, by simp at hfuel; omega⟩
    have hp : p ≠ [] := hne p (by simp)
    have hps : ∀ q ∈ ps, q ≠ [] := fun q hq => hne q (by simp [hq])
    simp only [pending, List.length_append] at hsize
    simp only [recv_text_loop, List.cons_append, show buf.length < text_size by omega, if_true,
      sock_read_cons p _ _ hp]
    rw [if_neg (by omega), List.take_of_length_le (by omega),
      ih (buf ++ p) f hps (by simp only [List.length_append]; omega)
        (by simp only [List.length_cons] at hfuel; omega)]
    simp [pending, List.append_assoc]

theorem receive_reply_pieces (e : Env) (info L : Nat) (pieces : List (List Nat))
    (last rest : List Nat) (more : List (List Nat)) (k : Nat) (hL0 : L ≠ 0)
    (hL : L < 2147483647) (hne : ∀ p ∈ pieces, p ≠ []) (hlast : last ≠ [])
    (hsize : (pending pieces).length + last.length = L + 1) :
    receive_reply e (pieces.length + 1 + k)
        ((info :: beBytes L) :: (pieces ++ (last ++ rest) :: more))
      = .message { job_info := info, text_length := L, job_text := pending pieces ++ last }
          (unread rest more) := by
  have h1 := sock_read_segment [info] (beBytes L) (pieces ++ (last ++ rest) :: more) (by simp)
  have h2 := sock_read_unread (beBytes L) [] (pieces ++ (last ++ rest) :: more)
    (by simp [beBytes])
  simp only [List.singleton_append, List.length_singleton, List.append_nil] at h1 h2
  rw [beBytes_length] at h2
  have h3 := recv_text_loop_pieces (L + 1) pieces last rest more [] (pieces.length + 1 + k)
    hne hlast (by simp only [List.length_nil]; omega) (by omega)
  have hu : unread [] (pieces ++ (last ++ rest) :: more) = pieces ++ (last ++ rest) :: more := by
    simp [unread]
  rw [hu] at h2
  simp only [receive_reply, h1, h2, List.length_singleton, ne_eq, not_true_eq_false, if_false,
    List.headD_cons, beBytes_length, intOfBytes_beBytes e L (by omega),
    show ¬ (L ≥ 2147483647) by omega, hL0, h3, List.nil_append]

/-- C18, the code when the stream ends within the job text: the header of a
frame declares the text length L > 0 and the server closes the stream after
fewer than L + 1 text bytes.  Whatever the fuel, `process_reply` does not
return: every further `read` returns 0, which the loop adds to
`received_bytes` and goes on.  Short reads of at least one byte are
continued: when the text arrives in pieces, the text received is the pieces
in order. -/
theorem text_read_on_closed_stream (e : Env) (fuel info L : Nat) (part : List Nat)
    (interrupted : Bool) (stdin : List Stdin) (so po pe : Chan)
    (pieces : List (List Nat)) (last rest : List Nat) (more : List (List Nat)) (k : Nat)
    (hL0 : L ≠ 0) (hL : L < 2147483647) (hpart : part.length < L + 1)
    (hne : ∀ p ∈ pieces, p ≠ []) (hlast : last ≠ [])
    (hsize : (pending pieces).length + last.length = L + 1) :
    process_reply e fuel ⟨interrupted, stdin, [info :: (beBytes L ++ part)], so, po, pe⟩
        = .timeout
      ∧ receive_reply e (pieces.length + 1 + k)
            ((info :: beBytes L) :: (pieces ++ (last ++ rest) :: more))
          = .message { job_info := info, text_length := L, job_text := pending pieces ++ last }
              (unread rest more) := by
  refine ⟨?_, receive_reply_pieces e info L pieces last rest more k hL0 hL hne hlast hsize⟩
  simp only [process_reply, receive_reply_closed e fuel info L part hL0 hL hpart]

theorem text_read_on_closed_stream_witness :
    process_reply envX 1000 ⟨false, [], [17 :: (beBytes 2 ++ [104])], ⟨[], []⟩, ⟨[], []⟩, ⟨[], []⟩⟩
        = .timeout
      ∧ receive_reply envX ([[104], [105]].length + 1 + 0)
            ((17 :: beBytes 2) :: ([[104], [105]] ++ ([0] ++ [224]) :: []))
          = .message { job_info := 17, text_length := 2, job_text := pending [[104], [105]] ++ [0] }
              (unread [224] []) :=
  text_read_on_closed_stream envX 1000 17 2 [104] false [] ⟨[], []⟩ ⟨[], []⟩ ⟨[], []⟩
    [[104], [105]] [0] [224] [] 0 (by decide) (by decide) (by decide) (by decide) (by decide)
    (by decide)

/-! ## A record whose text holds a NUL -/

/-- C19: a record of type 'O' or 'E' whose text (of length L, at most 54378)
has its first NUL at position k.  The message `create_msg` builds declares the
length L; its text is the first k bytes of the record's text followed by NUL
bytes only, so that the bytes after the NUL are not transmitted; its checksum
is the sum modulo 32 of the first k bytes; and the client, which receives
this very message, has `validate_checksum` accept it. -/
theorem embedded_nul_truncation (e : Env) (c : Nat) (pre post tail rest out : List Nat)
    (more : List (List Nat)) (pos fuel : Nat) (hc : c = TYPE_O ∨ c = TYPE_E)
    (hpre : NulFree pre) (hlen : (pre ++ 0 :: post).length ≤ 54378) :
    (fetch_job e (some ⟨recordBytes (typeChar c) (pre ++ 0 :: post) ++ tail, pos, false⟩)).1
        = create_msg e c (pre ++ 0 :: post).length ((pre ++ 0 :: post) ++ [0])
      ∧ ntohl e (create_msg e c (pre ++ 0 :: post).length ((pre ++ 0 :: post) ++ [0])).text_length
          = (pre ++ 0 :: post).length
      ∧ (create_msg e c (pre ++ 0 :: post).length ((pre ++ 0 :: post) ++ [0])).job_text
          = pre ++ List.replicate (post.length + 1) 0 ++ [0]
      ∧ (create_msg e c (pre ++ 0 :: post).length ((pre ++ 0 :: post) ++ [0])).job_info
          = c * 32 + pre.sum % 32
      ∧ (send_fetched e (create_msg e c (pre ++ 0 :: post).length ((pre ++ 0 :: post) ++ [0]))
            ⟨out, []⟩).2.out
          = out ++ (c * 32 + pre.sum % 32) ::
              (beBytes (pre ++ 0 :: post).length
                ++ (pre ++ List.replicate (post.length + 1) 0 ++ [0]))
      ∧ receive_reply e (fuel + 1)
            (((c * 32 + pre.sum % 32) ::
                (beBytes (pre ++ 0 :: post).length
                  ++ ((pre ++ List.replicate (post.length + 1) 0 ++ [0]) ++ rest))) :: more)
          = .message { job_info := c * 32 + pre.sum % 32,
                       text_length := (pre ++ 0 :: post).length,
                       job_text := pre ++ List.replicate (post.length + 1) 0 ++ [0] }
              (unread rest more)
      ∧ validate_checksum e { job_info := c * 32 + pre.sum % 32,
                              text_length := (pre ++ 0 :: post).length,
                              job_text := pre ++ List.replicate (post.length + 1) 0 ++ [0] }
          = 0 := by
  have hstr : strlen ((pre ++ 0 :: post) ++ [0]) = pre.length := by
    rw [List.append_assoc, List.cons_append]
    exact strlen_append_nul pre (post ++ [0]) hpre
  have hcs : checksum e ((pre ++ 0 :: post) ++ [0]) = pre.sum % 32 := by
    rw [List.append_assoc, List.cons_append]
    exact checksum_cstring e pre (post ++ [0]) hpre
  have hL0 : (pre ++ 0 :: post).length ≠ 0 := by simp
  have hsub : (pre ++ 0 :: post).length - pre.length = post.length + 1 := by
    simp only [List.length_append, List.length_cons]; omega
  have htext : (create_msg e c (pre ++ 0 :: post).length ((pre ++ 0 :: post) ++ [0])).job_text
      = pre ++ List.replicate (post.length + 1) 0 ++ [0] := by
    rw [create_msg_text_take e c (pre ++ 0 :: post) hc, if_neg hL0, hstr, List.take_left' rfl,
      hsub]
  have hinfo : (create_msg e c (pre ++ 0 :: post).length ((pre ++ 0 :: post) ++ [0])).job_info
      = c * 32 + pre.sum % 32 := by
    rw [create_msg_job e c _ _ hc, hcs]
  have hwire := send_fetched_job e c (pre ++ 0 :: post) out hc hlen
  rw [hcs, htext] at hwire
  refine ⟨?_, ?_, htext, hinfo, ?_, ?_, ?_⟩
  · rw [fetch_job_record e c (pre ++ 0 :: post) tail pos hc hlen]
  · rw [create_msg_job e c _ _ hc]
    exact ntohl_htonl e _ (by omega)
  · rw [hwire]
  · exact receive_reply_frame e _ _ _ rest more fuel (by omega) (by
      rw [if_neg hL0]
      simp only [List.length_append, List.length_replicate, List.length_cons, List.length_nil])
  · rw [List.replicate_succ, List.append_assoc, List.cons_append,
      validate_checksum_cstring e _ _ pre _ hL0 hpre]
    have : pre.sum % 32 = (c * 32 + pre.sum % 32) % 32 := by omega
    rw [if_pos this]

theorem embedded_nul_truncation_witness :
    (create_msg envX 0 ([65] ++ 0 :: [66]).length (([65] ++ 0 :: [66]) ++ [0])).job_text
      = [65] ++ List.replicate ([66].length + 1) 0 ++ [0] :=
  (embedded_nul_truncation envX 0 [65] [66] [] [] [] [] 0 0 (Or.inl rfl) (by decide)
    (by decide)).2.2.1

/-! ## Admission of connections -/

theorem approve_first (interrupted : Bool) (addr : Nat) (accepts : List (Option Nat))
    (haddr : addr ≠ 0) :
    approve_connection interrupted false ⟨0, some addr :: accepts, []⟩
      = .ret 0 ⟨1, accepts, [⟨addr, [0], false⟩]⟩ := by
  simp [approve_connection, haddr]

theorem accept_loop_closed (e : Env) (fuel k : Nat) (w : World) (srv1 : Server)
    (h : process_request e fuel w.srv = .ret 1 srv1) :
    accept_loop e fuel (k + 1) w = .ret 0 { w with srv := srv1 } := by
  simp only [accept_loop, h]
  simp

/-- C16 (as amended): when the active session reaches Closed, that is when
`process_request` returns 1 (after a stop request, an error-stop request or
an early End), the loop of `accept_connections` ends and `accept_connections`
returns 0 without another call of `accept`: the connections still pending
stay unaccepted and the counter `connections` stays at 1.  `main` then
ends the server process with the status `EXIT_SUCCESS`. -/
theorem server_exits_when_session_closes (e : Env) (fuel k : Nat) (w : World) (srv1 : Server)
    (addr : Nat) (accepts : List (Option Nat)) (cs : Int) (haddr : addr ≠ 0)
    (h : process_request e (fuel + 1) w.srv = .ret 1 srv1) :
    accept_loop e (fuel + 1) (k + 1) w = .ret 0 { w with srv := srv1 }
      ∧ accept_connections e (fuel + 1) ⟨⟨0, some addr :: accepts, []⟩, w.srv, cs⟩
          = .ret 0 ⟨⟨1, accepts, [⟨addr, [0], false⟩]⟩, srv1, 0⟩
      ∧ server_main e (fuel + 1) ⟨⟨0, some addr :: accepts, []⟩, w.srv, cs⟩
          = .ret 0 ⟨⟨1, accepts, [⟨addr, [0], false⟩]⟩, srv1, 0⟩
      ∧ (∀ (i : Bool) (reqs : List (Option Nat)) (sock : Chan) (file : Option FILE) (f : Nat),
          process_request e f ⟨i, some STOP_REQUEST :: reqs, sock, file⟩
            = .ret 1 ⟨i, reqs, sock, file⟩)
      ∧ (∀ (i : Bool) (reqs : List (Option Nat)) (sock : Chan) (file : Option FILE)
          (f r : Nat), STOP_REQUEST < r →
          process_request e f ⟨i, some r :: reqs, sock, file⟩ = .ret 1 ⟨i, reqs, sock, file⟩)
    := by
  have hac : accept_connections e (fuel + 1) ⟨⟨0, some addr :: accepts, []⟩, w.srv, cs⟩
      = .ret 0 ⟨⟨1, accepts, [⟨addr, [0], false⟩]⟩, srv1, 0⟩ := by
    simp only [accept_connections, approve_first _ addr accepts haddr]
    rw [if_neg (by decide), if_neg (by decide),
      accept_loop_closed e (fuel + 1) fuel ⟨⟨1, accepts, [⟨addr, [0], false⟩]⟩, w.srv, 0⟩ srv1 h]
  refine ⟨accept_loop_closed e (fuel + 1) k w srv1 h, hac, ?_, ?_, ?_⟩
  · simp only [server_main, hac]
    simp
  · intro i reqs sock file f
    rfl
  · intro i reqs sock file f r hr
    simp only [STOP_REQUEST] at hr
    have h0 : r ≠ 0 := by omega
    have h1 : r ≠ ONE_JOB_REQUEST := by simp only [ONE_JOB_REQUEST]; omega
    have h2 : ¬ r < ALL_JOBS_REQUEST := by simp only [ALL_JOBS_REQUEST]; omega
    have h3 : r ≠ ALL_JOBS_REQUEST := by simp only [ALL_JOBS_REQUEST]; omega
    have h4 : r ≠ STOP_REQUEST := by simp only [STOP_REQUEST]; omega
    have h5 : r > STOP_REQUEST := by simp only [STOP_REQUEST]; omega
    simp only [process_request, List.headD_cons, List.tail_cons, h0, h1, h2, h3, h4, h5,
      if_false, if_true]

theorem server_exits_when_session_closes_witness :
    server_main envX (0 + 1)
        ⟨⟨0, some 5 :: [some 6], []⟩, ⟨false, [some 128], ⟨[], []⟩, none⟩, -1⟩
      = .ret 0 ⟨⟨1, [some 6], [⟨5, [0], false⟩]⟩, ⟨false, [], ⟨[], []⟩, none⟩, 0⟩ :=
  (server_exits_when_session_closes envX 0 0
    ⟨⟨0, [], []⟩, ⟨false, [some 128], ⟨[], []⟩, none⟩, 0⟩ ⟨false, [], ⟨[], []⟩, none⟩
    5 [some 6] (-1) (by decide) (by decide)).2.2.1

/-- C16, counterexample to the claim as stated: a first client connects and
sends the stop request while a second connection (from the address 6) is
pending.  The server process ends with `EXIT_SUCCESS`; the second connection
is still pending, has not been accepted and has not been greeted. -/
theorem server_ends_after_first_session_counterexample :
    server_main envX 1
        ⟨⟨0, [some 5, some 6], []⟩, ⟨false, [some 128], ⟨[], []⟩, some (fopen srcHiBye)⟩, -1⟩
      = .ret 0 ⟨⟨1, [some 6], [⟨5, [0], false⟩]⟩,
          ⟨false, [], ⟨[], []⟩, some (fopen srcHiBye)⟩, 0⟩ := by
  decide

/-! ## Single-flight admission and the counter `connections` -/

theorem process_request_ne_undef (e : Env) (fuel : Nat) (s : Server) :
    process_request e fuel s ≠ .undef := by
  unfold process_request no_request
  simp only []
  split
  · split <;> simp
  · split_ifs
    all_goals first
      | (simp; done)
      | (split <;> simp)

theorem process_request_idle (e : Env) (fuel : Nat) (sock : Chan) (file : Option FILE) :
    process_request e fuel ⟨false, [], sock, file⟩ = .ret 0 ⟨false, [], sock, file⟩ := rfl

theorem approve_overflow (interrupted : Bool) (a : Admission)
    (h : a.connections ≥ 2147483647) : approve_connection interrupted true a = .undef := by
  simp [approve_connection, h]

theorem approve_poll_none (interrupted : Bool) (c : Int) (accepts : List (Option Nat))
    (conns : List Conn) (h2 : c < 2147483647) :
    approve_connection interrupted true ⟨c, none :: accepts, conns⟩
      = .ret (-1) ⟨c + 1, accepts, conns⟩ := by
  simp [approve_connection, show ¬ (2147483647 ≤ c) by omega]

theorem approve_poll_nothing (interrupted : Bool) (c : Int) (conns : List Conn)
    (h2 : c < 2147483647) :
    approve_connection interrupted true ⟨c, [], conns⟩ = .ret (-1) ⟨c + 1, [], conns⟩ := by
  simp [approve_connection, show ¬ (2147483647 ≤ c) by omega]

theorem approve_poll_some (interrupted : Bool) (c : Int) (addr : Nat)
    (accepts : List (Option Nat)) (conns : List Conn) (h1 : 1 ≤ c) (h2 : c < 2147483647)
    (haddr : addr ≠ 0) :
    approve_connection interrupted true ⟨c, some addr :: accepts, conns⟩
      = .ret conns.length ⟨c, accepts, conns ++ [⟨addr, [STOP_REQUEST], true⟩]⟩ := by
  simp [approve_connection, show ¬ (2147483647 ≤ c) by omega, haddr,
    show ¬ (c + 1 = 1) by omega, show (1 : Int) < c + 1 by omega]

theorem approve_poll_step (interrupted : Bool) (a : Admission) (hsf : SingleFlight a)
    (h1 : 1 ≤ a.connections) (h2 : a.connections < 2147483647)
    (haddr : ∀ ev ∈ a.accepts, ev ≠ some 0) :
    ∃ st a1, approve_connection interrupted true a = .ret st a1 ∧ SingleFlight a1
      ∧ 1 ≤ a1.connections ∧ a1.connections ≤ a.connections + 1
      ∧ ∀ ev ∈ a1.accepts, ev ≠ some 0 := by
  obtain ⟨c, accepts, conns⟩ := a
  simp only at h1 h2 haddr
  cases accepts with
  | nil =>
    exact ⟨_, _, approve_poll_nothing interrupted c conns h2, hsf, by simp only; omega,
      by simp only; omega, by simp⟩
  | cons ev rest =>
    have hrest : ∀ x ∈ rest, x ≠ some 0 := fun x hx => haddr x (by simp [hx])
    cases ev with
    | none =>
      exact ⟨_, _, approve_poll_none interrupted c rest conns h2, hsf, by simp only; omega,
        by simp only; omega, hrest⟩
    | some addr =>
      have ha : addr ≠ 0 := fun h => haddr (some addr) (by simp) (by rw [h])
      refine ⟨_, _, approve_poll_some interrupted c addr rest conns h1 h2 ha, ?_, h1,
        by simp only; omega, hrest⟩
      obtain ⟨first, later, hc, hf, hl⟩ := hsf
      simp only at hc
      refine ⟨first, later ++ [⟨addr, [STOP_REQUEST], true⟩], by simp [hc], hf, ?_⟩
      intro x hx
      rcases List.mem_append.mp hx with hx | hx
      · exact hl x hx
      · simp only [List.mem_singleton] at hx
        subst hx
        exact ⟨rfl, rfl⟩

theorem close_conn_busy (l : List Conn) (fd : Nat) (h : ∀ c ∈ l, Busy c) :
    ∀ c ∈ close_conn l fd, Busy c := by
  induction l generalizing fd with
  | nil => simp [close_conn]
  | cons x xs ih =>
    cases fd with
    | zero =>
      intro c hc
      simp only [close_conn, List.mem_cons] at hc
      rcases hc with hc | hc
      · subst hc
        exact ⟨(h x (by simp)).1, rfl⟩
      · exact h c (by simp [hc])
    | succ fd =>
      intro c hc
      simp only [close_conn, List.mem_cons] at hc
      rcases hc with hc | hc
      · subst hc
        exact h _ (by simp)
      · exact ih fd (fun y hy => h y (by simp [hy])) c hc

theorem close_conn_single_flight (a : Admission) (fd : Nat) (hsf : SingleFlight a) :
    SingleFlight { a with conns := close_conn a.conns fd } := by
  obtain ⟨first, later, hc, hf, hl⟩ := hsf
  cases fd with
  | zero => exact ⟨{ first with closed := true }, later, by simp [hc, close_conn], hf, hl⟩
  | succ fd =>
    exact ⟨first, close_conn later fd, by simp [hc, close_conn], hf, close_conn_busy later fd hl⟩

theorem accept_loop_single_flight (e : Env) (fuel k : Nat) (w : World)
    (hsf : SingleFlight w.adm) (h1 : 1 ≤ w.adm.connections)
    (hb : w.adm.connections + k ≤ 2147483647)
    (haddr : ∀ ev ∈ w.adm.accepts, ev ≠ some 0) :
    accept_loop e fuel k w ≠ .undef
      ∧ ∀ st w1, accept_loop e fuel k w = .ret st w1 →
          SingleFlight w1.adm ∧ w1.client_sock = w.client_sock := by
  induction k generalizing w with
  | zero => simp [accept_loop]
  | succ k ih =>
    simp only [accept_loop]
    rcases hp : process_request e fuel w.srv with ⟨rs, srv⟩ | _ | _
    · simp only
      by_cases hm : rs = -1
      · rw [if_pos hm]
        refine ⟨by simp, ?_⟩
        intro st w1 hw
        simp only [Outcome.ret.injEq] at hw
        obtain ⟨-, rfl⟩ := hw
        exact ⟨close_conn_single_flight w.adm _ hsf, rfl⟩
      · rw [if_neg hm]
        by_cases ho : rs = 1
        · rw [if_pos ho]
          refine ⟨by simp, ?_⟩
          intro st w1 hw
          simp only [Outcome.ret.injEq] at hw
          obtain ⟨-, rfl⟩ := hw
          exact ⟨hsf, rfl⟩
        · rw [if_neg ho]
          obtain ⟨st0, a1, ha, hsf1, h11, h12, haddr1⟩ :=
            approve_poll_step srv.interrupted w.adm hsf h1 (by omega) haddr
          rw [ha]
          simp only
          have := ih { w with srv := srv, adm := a1 } hsf1 h11 (by simp only; omega) haddr1
          exact this
    · exact absurd hp (process_request_ne_undef e fuel w.srv)
    · simp

theorem accept_loop_idle_overflow (e : Env) (fuel : Nat) (a1 : Nat) (n k : Nat) (c : Int)
    (conns : List Conn) (sock : Chan) (file : Option FILE) (cs : Int)
    (hc : c + n = 2147483647) :
    accept_loop e fuel (n + 1 + k)
        ⟨⟨c, List.replicate n none ++ [some a1], conns⟩, ⟨false, [], sock, file⟩, cs⟩
      = .undef := by
  induction n generalizing c with
  | zero =>
    rw [show 0 + 1 + k = k + 1 by omega]
    simp only [accept_loop, process_request_idle]
    rw [if_neg (by decide), if_neg (by decide),
      approve_overflow false _ (by simp only; omega)]
  | succ n ih =>
    rw [show n + 1 + 1 + k = (n + 1 + k) + 1 by omega]
    simp only [accept_loop, process_request_idle]
    rw [if_neg (by decide), if_neg (by decide), List.replicate_succ, List.cons_append,
      approve_poll_none false c _ conns (by omega)]
    exact ih (c + 1) (by push_cast at hc ⊢; omega)

theorem accept_connections_overflow (e : Env) (n k a0 a1 : Nat) (sock : Chan)
    (file : Option FILE) (cs : Int) (ha0 : a0 ≠ 0) (hn : (1 : Int) + n = 2147483647) :
    accept_connections e (n + 1 + k)
        ⟨⟨0, some a0 :: (List.replicate n none ++ [some a1]), []⟩, ⟨false, [], sock, file⟩, cs⟩
      = .undef := by
  simp only [accept_connections, approve_first false a0 _ ha0]
  rw [if_neg (by decide), if_neg (by decide)]
  exact accept_loop_idle_overflow e (n + 1 + k) a1 n k 1 _ sock file 0 hn

/-- C15, the code below and at the overflow of `connections`.  As long as
the counter stays below `INT_MAX` (it starts at 1 with the first client and
every poll that finds no pending connection adds 1 to it), the admission
invariant holds along the loop of `accept_connections`: the first connection
is the one greeted with 0, every connection accepted later (from a non-zero
address) has been sent 128 and closed, and `client_sock` is unchanged.  At
the failing input the client stays connected without sending a request, the
first 2147483646 polls find no pending connection and the next poll accepts
a connection: `connections++` overflows there, which is undefined. -/
theorem single_flight_until_overflow (e : Env) (fuel k : Nat) (w : World)
    (a0 a1 : Nat) (sock : Chan) (file : Option FILE) (cs : Int)
    (hsf : SingleFlight w.adm) (h1 : 1 ≤ w.adm.connections)
    (hb : w.adm.connections + k ≤ 2147483647)
    (haddr : ∀ ev ∈ w.adm.accepts, ev ≠ some 0) (ha0 : a0 ≠ 0) :
    (accept_loop e fuel k w ≠ .undef
        ∧ ∀ st w1, accept_loop e fuel k w = .ret st w1 →
            SingleFlight w1.adm ∧ w1.client_sock = w.client_sock)
      ∧ accept_connections e 2147483647
          ⟨⟨0, some a0 :: (List.replicate 2147483646 none ++ [some a1]), []⟩,
            ⟨false, [], sock, file⟩, cs⟩
        = .undef :=
  ⟨accept_loop_single_flight e fuel k w hsf h1 hb haddr,
   accept_connections_overflow e 2147483646 0 a0 a1 sock file cs ha0 (by norm_num)⟩

theorem single_flight_until_overflow_witness :
    accept_loop envX 3 3
        ⟨⟨1, [none, some 6], [⟨5, [0], false⟩]⟩,
          ⟨false, [none, none, some 128], ⟨[], []⟩, none⟩, 0⟩ ≠ .undef
      ∧ accept_connections envX 2147483647
          ⟨⟨0, some 5 :: (List.replicate 2147483646 none ++ [some 6]), []⟩,
            ⟨false, [], ⟨[], []⟩, none⟩, -1⟩
        = .undef :=
  ⟨(single_flight_until_overflow envX 3 3
      ⟨⟨1, [none, some 6], [⟨5, [0], false⟩]⟩,
        ⟨false, [none, none, some 128], ⟨[], []⟩, none⟩, 0⟩
      5 6 ⟨[], []⟩ none (-1)
      ⟨⟨5, [0], false⟩, [], rfl, rfl, fun _ h => absurd h (List.not_mem_nil _)⟩
      (by decide) (by decide) (by decide) (by decide)).1.1,
   (single_flight_until_overflow envX 3 3
      ⟨⟨1, [none, some 6], [⟨5, [0], false⟩]⟩,
        ⟨false, [none, none, some 128], ⟨[], []⟩, none⟩, 0⟩
      5 6 ⟨[], []⟩ none (-1)
      ⟨⟨5, [0], false⟩, [], rfl, rfl, fun _ h => absurd h (List.not_mem_nil _)⟩
      (by decide) (by decide) (by decide) (by decide)).2⟩

end SocketComms
